import Mathlib

/-!
# Verification of the paypulse-api job scheduling and fairness engine

Shallow embedding of the job-store repositories, the discovery (email sync)
processor, the extraction (LLM sync) processor and the watcher sweeps of the
`kiwis-worker` Go service, together with proofs about the spec's claims.

Modelling conventions:
* `time.Time` values are modelled as `Int` (an abstract linear timeline);
  `nil *time.Time` becomes `Option Int`.
* Go `int` counters are modelled as `Int` (no overflow occurs at the
  magnitudes the code handles).
* Go `float64` amounts are modelled as `Rat`; the code only compares them
  with `0` and passes them through, so the embedding is faithful for every
  claim considered here.
* SQL tables are modelled as `List` of row structures; `ORDER BY ... LIMIT`
  becomes filter / sort / take.
* External collaborators (Gmail API, OpenRouter HTTP endpoint, account
  lookups) are modelled as explicit environment functions returning
  `Except String _`, mirroring the Go error values.
-/

namespace PayPulse

/-! ## Data model (internal/models) -/

/-- `models.EmailSyncStatus` constants. -/
inductive EmailStatus where
  | pending
  | processing
  | synced
  | completed
  | failed
deriving DecidableEq, Repr

/-- `models.EmailSyncType` constants. -/
inductive SyncType where
  | initial
  | incremental
  | webhook
deriving DecidableEq, Repr

/-- `models.LLMSyncJob` status constants (`LLMStatusPending` etc.). -/
inductive LLMStatus where
  | pending
  | processing
  | completed
  | failed
deriving DecidableEq, Repr

/-- `models.AccountSyncStatus` constants. -/
inductive AccountStatus where
  | pending
  | processing
  | completed
  | failed
deriving DecidableEq, Repr

/-- `models.EmailSyncJob` (table `email_sync_job`). -/
structure EmailSyncJob where
  id : String
  accountId : String
  status : EmailStatus
  syncType : SyncType
  emailsFetched : Int
  pageToken : Option String
  lastSyncedAt : Option Int
  attempts : Int
  lastError : Option String
  createdAt : Int
  updatedAt : Int
  processedAt : Option Int
deriving DecidableEq, Repr

/-- `models.LLMSyncJob` (table `llm_sync_job`). -/
structure LLMSyncJob where
  id : String
  accountId : String
  messageId : String
  status : LLMStatus
  lastSyncedAt : Option Int
  attempts : Int
  lastError : Option String
  createdAt : Int
  updatedAt : Int
  processedAt : Option Int
deriving DecidableEq, Repr

/-- `models.AccountSyncJob` (table `account_sync_job`). -/
structure AccountSyncJob where
  id : String
  accountId : String
  status : AccountStatus
  attempts : Int
  lastError : Option String
  createdAt : Int
  updatedAt : Int
  processedAt : Option Int
deriving DecidableEq, Repr

/-- `models.Account` (only the fields the processors read). -/
structure Account where
  id : String
  accessToken : Option String
  refreshToken : Option String
  accessTokenExpiresAt : Option Int
deriving DecidableEq, Repr

/-! ## Fairness ordering

Both job repositories issue
`ORDER BY last_synced_at ASC NULLS FIRST, created_at ASC`.
A row's sort key is its `(last_synced_at, created_at)` pair. -/

/-- The SQL comparison `last_synced_at ASC NULLS FIRST, created_at ASC`
on sort keys `(last_synced_at, created_at)`. -/
def fairLEb : Option Int × Int → Option Int × Int → Bool
  | (none, c1), (none, c2) => decide (c1 ≤ c2)
  | (none, _), (some _, _) => true
  | (some _, _), (none, _) => false
  | (some x, c1), (some y, c2) => decide (x < y) || (decide (x = y) && decide (c1 ≤ c2))

theorem fairLEb_total (p q : Option Int × Int) : fairLEb p q = true ∨ fairLEb q p = true := by
  rcases p with ⟨l1, c1⟩
  rcases q with ⟨l2, c2⟩
  rcases l1 with _ | x <;> rcases l2 with _ | y <;> simp [fairLEb] <;> omega

theorem fairLEb_trans (p q r : Option Int × Int) (h1 : fairLEb p q = true)
    (h2 : fairLEb q r = true) : fairLEb p r = true := by
  rcases p with ⟨l1, c1⟩
  rcases q with ⟨l2, c2⟩
  rcases r with ⟨l3, c3⟩
  rcases l1 with _ | x <;> rcases l2 with _ | y <;> rcases l3 with _ | z <;>
    simp_all [fairLEb] <;> omega

/-- Sort key of an email sync job row. -/
def EmailSyncJob.fairKey (j : EmailSyncJob) : Option Int × Int :=
  (j.lastSyncedAt, j.createdAt)

/-- Sort key of an LLM sync job row. -/
def LLMSyncJob.fairKey (j : LLMSyncJob) : Option Int × Int :=
  (j.lastSyncedAt, j.createdAt)

/-- Row ordering used by the email sync job queries. -/
def emailFairLE (a b : EmailSyncJob) : Prop := fairLEb a.fairKey b.fairKey = true

/-- Row ordering used by the LLM sync job queries. -/
def llmFairLE (a b : LLMSyncJob) : Prop := fairLEb a.fairKey b.fairKey = true

instance : DecidableRel emailFairLE := fun a b => by unfold emailFairLE; infer_instance

instance : DecidableRel llmFairLE := fun a b => by unfold llmFairLE; infer_instance

instance : IsTotal EmailSyncJob emailFairLE :=
  ⟨fun a b => fairLEb_total a.fairKey b.fairKey⟩

instance : IsTrans EmailSyncJob emailFairLE :=
  ⟨fun a b c => fairLEb_trans a.fairKey b.fairKey c.fairKey⟩

instance : IsTotal LLMSyncJob llmFairLE :=
  ⟨fun a b => fairLEb_total a.fairKey b.fairKey⟩

instance : IsTrans LLMSyncJob llmFairLE :=
  ⟨fun a b c => fairLEb_trans a.fairKey b.fairKey c.fairKey⟩

/-! ## Job store reads (repository GetPendingJobs / GetFailedJobs / GetProcessingJobs)

`SELECT ... WHERE status = $1 ORDER BY last_synced_at ASC NULLS FIRST,
created_at ASC LIMIT $2` becomes filter, sort, take. -/

/-- `WHERE status = st ORDER BY fairness LIMIT limit` over the email_sync_job table. -/
def emailListDue (store : List EmailSyncJob) (st : EmailStatus) (limit : Nat) :
    List EmailSyncJob :=
  (((store.filter (fun j => j.status = st)).insertionSort emailFairLE).take limit)

/-- `EmailSyncJobRepository.GetPendingJobs`. -/
def emailGetPendingJobs (store : List EmailSyncJob) (limit : Nat) : List EmailSyncJob :=
  emailListDue store .pending limit

/-- `EmailSyncJobRepository.GetFailedJobs`. -/
def emailGetFailedJobs (store : List EmailSyncJob) (limit : Nat) : List EmailSyncJob :=
  emailListDue store .failed limit

/-- `EmailSyncJobRepository.GetProcessingJobs`. -/
def emailGetProcessingJobs (store : List EmailSyncJob) (limit : Nat) : List EmailSyncJob :=
  emailListDue store .processing limit

/-- `WHERE status = st ORDER BY fairness LIMIT limit` over the llm_sync_job table. -/
def llmListDue (store : List LLMSyncJob) (st : LLMStatus) (limit : Nat) :
    List LLMSyncJob :=
  (((store.filter (fun j => j.status = st)).insertionSort llmFairLE).take limit)

/-- `LLMSyncJobRepository.GetPendingJobs`. -/
def llmGetPendingJobs (store : List LLMSyncJob) (limit : Nat) : List LLMSyncJob :=
  llmListDue store .pending limit

/-- `LLMSyncJobRepository.GetFailedJobs`. -/
def llmGetFailedJobs (store : List LLMSyncJob) (limit : Nat) : List LLMSyncJob :=
  llmListDue store .failed limit

/-- `LLMSyncJobRepository.GetProcessingJobs`. -/
def llmGetProcessingJobs (store : List LLMSyncJob) (limit : Nat) : List LLMSyncJob :=
  llmListDue store .processing limit

/-- `AccountSyncJobRepository` reads sort by `created_at ASC` only. -/
def accountListDue (store : List AccountSyncJob) (st : AccountStatus) (limit : Nat) :
    List AccountSyncJob :=
  (((store.filter (fun j => j.status = st)).insertionSort
      (fun a b => a.createdAt ≤ b.createdAt)).take limit)

instance : IsTotal AccountSyncJob (fun a b => a.createdAt ≤ b.createdAt) :=
  ⟨fun a b => le_total a.createdAt b.createdAt⟩

instance : IsTrans AccountSyncJob (fun a b => a.createdAt ≤ b.createdAt) :=
  ⟨fun _ _ _ h1 h2 => le_trans h1 h2⟩

/-! ## C1: the ordering contract, stated in the spec's own words -/

/-- The spec's ordering sentence, written from the spec, not from the SQL:
nulls first (among themselves by creation time ascending), then non-null
fairness timestamps ascending, ties broken by creation time ascending. -/
def specFairLE (p q : Option Int × Int) : Prop :=
  (p.1 = none ∧ q.1 = none ∧ p.2 ≤ q.2)
    ∨ (p.1 = none ∧ q.1 ≠ none)
    ∨ (∃ x y, p.1 = some x ∧ q.1 = some y ∧ (x < y ∨ (x = y ∧ p.2 ≤ q.2)))

theorem specFairLE_of_fairLEb {p q : Option Int × Int} (h : fairLEb p q = true) :
    specFairLE p q := by
  rcases p with ⟨l1, c1⟩
  rcases q with ⟨l2, c2⟩
  rcases l1 with _ | x <;> rcases l2 with _ | y <;>
    simp_all [fairLEb, specFairLE]

/-- Everything C1 asserts about one due-set read, over email sync jobs. -/
def emailReadSpec (out : List EmailSyncJob) (st : EmailStatus) (limit : Nat) : Prop :=
  out.length ≤ limit ∧ (∀ j ∈ out, j.status = st)
    ∧ out.Pairwise (fun a b => specFairLE a.fairKey b.fairKey)

/-- Everything C1 asserts about one due-set read, over LLM sync jobs. -/
def llmReadSpec (out : List LLMSyncJob) (st : LLMStatus) (limit : Nat) : Prop :=
  out.length ≤ limit ∧ (∀ j ∈ out, j.status = st)
    ∧ out.Pairwise (fun a b => specFairLE a.fairKey b.fairKey)

theorem emailListDue_spec (store : List EmailSyncJob) (st : EmailStatus) (limit : Nat) :
    emailReadSpec (emailListDue store st limit) st limit := by
  unfold emailReadSpec emailListDue
  refine ⟨?_, ?_, ?_⟩
  · simp
  · intro j hj
    have hj' : j ∈ (store.filter (fun j => j.status = st)).insertionSort emailFairLE :=
      List.mem_of_mem_take hj
    have := (List.mem_insertionSort emailFairLE).mp hj'
    simpa using (List.mem_filter.mp this).2
  · have hs : ((store.filter (fun j => j.status = st)).insertionSort emailFairLE).Pairwise
        emailFairLE :=
      List.sorted_insertionSort emailFairLE _
    exact hs.take.imp (fun h => specFairLE_of_fairLEb h)

theorem llmListDue_spec (store : List LLMSyncJob) (st : LLMStatus) (limit : Nat) :
    llmReadSpec (llmListDue store st limit) st limit := by
  unfold llmReadSpec llmListDue
  refine ⟨?_, ?_, ?_⟩
  · simp
  · intro j hj
    have hj' : j ∈ (store.filter (fun j => j.status = st)).insertionSort llmFairLE :=
      List.mem_of_mem_take hj
    have := (List.mem_insertionSort llmFairLE).mp hj'
    simpa using (List.mem_filter.mp this).2
  · have hs : ((store.filter (fun j => j.status = st)).insertionSort llmFairLE).Pairwise
        llmFairLE :=
      List.sorted_insertionSort llmFairLE _
    exact hs.take.imp (fun h => specFairLE_of_fairLEb h)

/-- C1: every due-set read (pending / failed / stuck-processing, for both
discovery and extraction jobs) returns at most `limit` jobs, every returned
job has the requested status, and the output is ordered with null fairness
timestamps first (among themselves by creation time ascending) followed by
non-null timestamps ascending, ties broken by creation time ascending. -/
theorem C1_listDue_fairness_contract (es : List EmailSyncJob) (ls : List LLMSyncJob)
    (limit : Nat) :
    emailReadSpec (emailGetPendingJobs es limit) .pending limit
      ∧ emailReadSpec (emailGetFailedJobs es limit) .failed limit
      ∧ emailReadSpec (emailGetProcessingJobs es limit) .processing limit
      ∧ llmReadSpec (llmGetPendingJobs ls limit) .pending limit
      ∧ llmReadSpec (llmGetFailedJobs ls limit) .failed limit
      ∧ llmReadSpec (llmGetProcessingJobs ls limit) .processing limit :=
  ⟨emailListDue_spec es .pending limit, emailListDue_spec es .failed limit,
    emailListDue_spec es .processing limit, llmListDue_spec ls .pending limit,
    llmListDue_spec ls .failed limit, llmListDue_spec ls .processing limit⟩

/-! ## Job store writes

Each `UPDATE ... WHERE id = $n` is a map over the table that rewrites the
matching rows and leaves every other row untouched. -/

/-- `LLMSyncJobRepository.UpdateStatus`: sets status, last_error, updated_at
and `last_synced_at = now`; it never touches `processed_at`. -/
def llmUpdateStatus (store : List LLMSyncJob) (id : String) (status : LLMStatus)
    (lastError : Option String) (now : Int) : List LLMSyncJob :=
  store.map fun r =>
    if r.id = id then
      { r with status := status, lastError := lastError, updatedAt := now,
               lastSyncedAt := some now }
    else r

/-- `LLMSyncJobRepository.IncrementAttempts`. -/
def llmIncrementAttempts (store : List LLMSyncJob) (id : String) (now : Int) :
    List LLMSyncJob :=
  store.map fun r =>
    if r.id = id then { r with attempts := r.attempts + 1, updatedAt := now } else r

/-- `LLMSyncJobRepository.BulkCreate`: row-by-row insert with
`ON CONFLICT (message_id) DO NOTHING`; a row whose `message_id` is already
present (in the table or earlier in the same batch) is silently skipped. -/
def llmBulkCreate (store : List LLMSyncJob) (jobs : List LLMSyncJob) : List LLMSyncJob :=
  jobs.foldl
    (fun s j => if s.any (fun r => r.messageId = j.messageId) then s else s ++ [j]) store

/-- `EmailSyncJobRepository.UpdateProgress`: sets emails_fetched, page_token,
`last_synced_at = now` and updated_at. -/
def emailUpdateProgress (store : List EmailSyncJob) (jobID : String)
    (emailsFetched : Int) (pageToken : Option String) (now : Int) : List EmailSyncJob :=
  store.map fun r =>
    if r.id = jobID then
      { r with emailsFetched := emailsFetched, pageToken := pageToken,
               lastSyncedAt := some now, updatedAt := now }
    else r

/-- `EmailSyncJobRepository.UpdateStatus`: sets `processed_at = now` for
synced/completed/failed and writes NULL for every other status. -/
def emailUpdateStatus (store : List EmailSyncJob) (jobID : String)
    (status : EmailStatus) (lastError : Option String) (now : Int) : List EmailSyncJob :=
  let processedAt : Option Int :=
    if status = .synced ∨ status = .completed ∨ status = .failed then some now else none
  store.map fun r =>
    if r.id = jobID then
      { r with status := status, lastError := lastError, updatedAt := now,
               processedAt := processedAt }
    else r

/-- `AccountSyncJobRepository.UpdateStatus`: the `updates` map gains a
`processed_at = now` entry only for completed/failed; for every other status
`processed_at` is left as it was. -/
def accountUpdateStatus (store : List AccountSyncJob) (jobID : String)
    (status : AccountStatus) (lastError : Option String) (now : Int) :
    List AccountSyncJob :=
  store.map fun r =>
    if r.id = jobID then
      if status = .completed ∨ status = .failed then
        { r with status := status, lastError := lastError, updatedAt := now,
                 processedAt := some now }
      else
        { r with status := status, lastError := lastError, updatedAt := now }
    else r

/-- First row with the given id, the result of `WHERE id = $1` lookups. -/
def findEmailJob (store : List EmailSyncJob) (id : String) : Option EmailSyncJob :=
  store.find? (fun r => r.id = id)

/-- First row with the given id in the llm_sync_job table. -/
def findLLMJob (store : List LLMSyncJob) (id : String) : Option LLMSyncJob :=
  store.find? (fun r => r.id = id)

/-- First row with the given id in the account_sync_job table. -/
def findAccountJob (store : List AccountSyncJob) (id : String) : Option AccountSyncJob :=
  store.find? (fun r => r.id = id)

/-! ## C4: bulk creation is idempotent under message-id conflict -/

/-- At most one llm_sync_job row per message identifier (the unique index
`idx_llm_sync_job_message_id`). -/
def MessageIdUnique (store : List LLMSyncJob) : Prop :=
  store.Pairwise (fun a b => a.messageId ≠ b.messageId)

theorem llmBulkCreate_step_unique (s : List LLMSyncJob) (j : LLMSyncJob)
    (h : MessageIdUnique s) :
    MessageIdUnique
      (if s.any (fun r => r.messageId = j.messageId) then s else s ++ [j]) := by
  split
  · exact h
  · next hdup =>
    unfold MessageIdUnique
    rw [List.pairwise_append]
    refine ⟨h, List.pairwise_singleton _ _, ?_⟩
    intro a ha b hb
    simp only [List.mem_singleton] at hb
    subst hb
    intro hEq
    exact hdup (List.any_eq_true.mpr ⟨a, ha, by simp [hEq]⟩)

theorem llmBulkCreate_unique (store : List LLMSyncJob) (jobs : List LLMSyncJob)
    (h : MessageIdUnique store) : MessageIdUnique (llmBulkCreate store jobs) := by
  unfold llmBulkCreate
  induction jobs generalizing store with
  | nil => exact h
  | cons j t ih =>
    simpa using ih _ (llmBulkCreate_step_unique store j h)

theorem llmBulkCreate_fold_mono (jobs : List LLMSyncJob) (s : List LLMSyncJob)
    (r : LLMSyncJob) (hr : r ∈ s) :
    r ∈ jobs.foldl
      (fun s j => if s.any (fun r => r.messageId = j.messageId) then s else s ++ [j]) s := by
  induction jobs generalizing s with
  | nil => exact hr
  | cons a t ih =>
    rw [List.foldl_cons]
    refine ih _ ?_
    dsimp only
    split
    · exact hr
    · exact List.mem_append_left _ hr

theorem llmBulkCreate_mem_messageId (store : List LLMSyncJob) (jobs : List LLMSyncJob)
    (j : LLMSyncJob) (hj : j ∈ jobs) :
    ∃ r ∈ llmBulkCreate store jobs, r.messageId = j.messageId := by
  unfold llmBulkCreate
  induction jobs generalizing store with
  | nil => cases hj
  | cons a t ih =>
    rcases List.mem_cons.mp hj with rfl | hj'
    · -- the head is inserted, or a row with its message id is already present;
      -- either way the fold only ever appends rows, so the id survives
      have hbase :
          ∃ r ∈ (if store.any (fun r => r.messageId = j.messageId) then store
                  else store ++ [j]), r.messageId = j.messageId := by
        split
        · next hany =>
          rcases List.any_eq_true.mp hany with ⟨r, hr, hEq⟩
          exact ⟨r, hr, by simpa using hEq⟩
        · exact ⟨j, by simp, rfl⟩
      rcases hbase with ⟨r, hr, hEq⟩
      rw [List.foldl_cons]
      exact ⟨r, llmBulkCreate_fold_mono t _ r hr, hEq⟩
    · rw [List.foldl_cons]
      exact ih _ hj'

/-- C4: bulk creation of extraction jobs preserves the at-most-one-row-per-
message-identifier invariant for every batch and every store state; rows whose
message identifier is already taken are skipped (the store keeps a single row
for that identifier), and every message identifier of the batch is present
afterwards — the call never rejects the batch. -/
theorem C4_bulkCreate_message_id_unique (store : List LLMSyncJob)
    (jobs : List LLMSyncJob) (h : MessageIdUnique store) :
    MessageIdUnique (llmBulkCreate store jobs)
      ∧ (∀ j ∈ jobs, ∃ r ∈ llmBulkCreate store jobs, r.messageId = j.messageId) :=
  ⟨llmBulkCreate_unique store jobs h, fun j hj => llmBulkCreate_mem_messageId store jobs j hj⟩

/-! ## C5: fairness timestamp refresh on status / progress updates -/

/-- C5: every extraction-job status update — whatever the new status — writes
`last_synced_at = now` on the matching row and leaves all other rows' fairness
timestamps unchanged; a discovery-job progress update does the same. -/
theorem C5_status_update_refreshes_fairness (ls : List LLMSyncJob)
    (es : List EmailSyncJob) (id jobID : String) (status : LLMStatus)
    (lastError : Option String) (emailsFetched : Int) (pageToken : Option String)
    (now : Int) :
    (llmUpdateStatus ls id status lastError now).map (·.lastSyncedAt)
        = ls.map (fun r => if r.id = id then some now else r.lastSyncedAt)
      ∧ (emailUpdateProgress es jobID emailsFetched pageToken now).map (·.lastSyncedAt)
        = es.map (fun r => if r.id = jobID then some now else r.lastSyncedAt) := by
  constructor
  · unfold llmUpdateStatus
    rw [List.map_map]
    refine List.map_congr_left fun r _ => ?_
    by_cases h : r.id = id <;> simp [h]
  · unfold emailUpdateProgress
    rw [List.map_map]
    refine List.map_congr_left fun r _ => ?_
    by_cases h : r.id = jobID <;> simp [h]

/-! ## C6: processed_at maintenance

The claim asserts one rule for all three job kinds.  The code implements
three different rules: the email repository sets `processed_at = now` on
synced/completed/failed and writes NULL otherwise; the account repository
sets it on completed/failed and leaves it untouched otherwise; the llm
repository's UpdateStatus never mentions `processed_at` at all. -/

/-- A concrete extraction job used to refute C6 as stated. -/
def c6Job : LLMSyncJob :=
  { id := "j1", accountId := "a1", messageId := "m1", status := .processing,
    lastSyncedAt := some 1, attempts := 1, lastError := none,
    createdAt := 0, updatedAt := 1, processedAt := none }

/-- A concrete account job used to refute C6 as stated. -/
def c6AccountJob : AccountSyncJob :=
  { id := "a1", accountId := "acc1", status := .failed, attempts := 1,
    lastError := some "boom", createdAt := 0, updatedAt := 1, processedAt := some 3 }

/-- C6 counterexample: updating extraction job `j1` to the terminal status
`completed` at time 5 leaves `processed_at` NULL (the claim demands
`processed_at = 5`), and updating account job `a1` to `processing` at time 5
leaves `processed_at = 3` (the claim demands that it be cleared to NULL). -/
theorem C6_cex_processed_at_not_maintained :
    (llmUpdateStatus [c6Job] "j1" .completed none 5).map (·.processedAt) ≠ [some 5]
      ∧ (accountUpdateStatus [c6AccountJob] "a1" .processing none 5).map (·.processedAt)
        ≠ [none] := by
  constructor <;> decide

/-- C6 amended: only discovery-job status updates follow the claimed rule
(`processed_at = now` on synced/completed/failed, NULL otherwise, so moving to
`processing` clears it); account-job updates set `processed_at = now` on
completed/failed but leave it unchanged on any other status, `processing`
included; extraction-job status updates never modify `processed_at`. -/
theorem C6_amended_processed_at_rules (es : List EmailSyncJob)
    (as : List AccountSyncJob) (ls : List LLMSyncJob) (id aid lid : String)
    (est : EmailStatus) (ast : AccountStatus) (lst : LLMStatus)
    (lastError : Option String) (now : Int) :
    (emailUpdateStatus es id est lastError now).map (·.processedAt)
        = es.map (fun r => if r.id = id then
            (if est = .synced ∨ est = .completed ∨ est = .failed then some now else none)
          else r.processedAt)
      ∧ (accountUpdateStatus as aid ast lastError now).map (·.processedAt)
        = as.map (fun r => if r.id = aid then
            (if ast = .completed ∨ ast = .failed then some now else r.processedAt)
          else r.processedAt)
      ∧ (llmUpdateStatus ls lid lst lastError now).map (·.processedAt)
        = ls.map (·.processedAt) := by
  refine ⟨?_, ?_, ?_⟩
  · unfold emailUpdateStatus
    rw [List.map_map]
    refine List.map_congr_left fun r _ => ?_
    by_cases h : r.id = id <;>
      by_cases h2 : est = .synced ∨ est = .completed ∨ est = .failed <;> simp [h, h2]
  · unfold accountUpdateStatus
    rw [List.map_map]
    refine List.map_congr_left fun r _ => ?_
    by_cases h : r.id = aid <;>
      by_cases h2 : ast = .completed ∨ ast = .failed <;> simp [h, h2]
  · unfold llmUpdateStatus
    rw [List.map_map]
    refine List.map_congr_left fun r _ => ?_
    by_cases h : r.id = lid <;> simp [h]

/-! ## Generic lookup lemmas -/

theorem find?_map_pres {α : Type} (g : α → α) (p : α → Bool) (hp : ∀ r, p (g r) = p r)
    (s : List α) : (s.map g).find? p = (s.find? p).map g := by
  induction s with
  | nil => rfl
  | cons a t ih =>
    by_cases h : p a = true
    · simp [List.find?, hp a, h]
    · have h' : p a = false := by simpa using h
      simp [List.find?, hp a, h', ih]

theorem find?_eq_self_of_nodup {α β : Type} [DecidableEq β] (f : α → β) (s : List α)
    (h : (s.map f).Nodup) (j : α) (hj : j ∈ s) :
    s.find? (fun r => f r = f j) = some j := by
  induction s with
  | nil => cases hj
  | cons a t ih =>
    rcases List.mem_cons.mp hj with rfl | hj'
    · simp [List.find?]
    · have hne : f a ≠ f j := by
        intro hEq
        have : f j ∈ t.map f := List.mem_map_of_mem f hj'
        rw [← hEq] at this
        exact (List.nodup_cons.mp (by simpa using h)).1 this
      have h' : (decide (f a = f j)) = false := by simpa using hne
      simp only [List.find?, h']
      exact ih (List.nodup_cons.mp (by simpa using h)).2 hj'

theorem id_inj_of_nodup {α β : Type} [DecidableEq β] (f : α → β) {s : List α}
    (h : (s.map f).Nodup) {a b : α} (ha : a ∈ s) (hb : b ∈ s) (hid : f a = f b) :
    a = b :=
  List.inj_on_of_nodup_map h ha hb hid

/-! ## Watcher sweeps (internal/watcher)

The store-visible behaviour of each sweep, plus an event trace recording the
program order mark → increment → dispatch. -/

/-- Events emitted by a watcher sweep, in program order. -/
inductive WEvent where
  | mark (jobId : String)
  | incr (jobId : String)
  | dispatch
deriving DecidableEq, Repr

/-- `EmailSyncJobRepository.IncrementAttempts`. -/
def emailIncrementAttempts (store : List EmailSyncJob) (id : String) (now : Int) :
    List EmailSyncJob :=
  store.map fun r =>
    if r.id = id then { r with attempts := r.attempts + 1, updatedAt := now } else r

/-- `AccountSyncJobRepository.IncrementAttempts`. -/
def accountIncrementAttempts (store : List AccountSyncJob) (id : String) (now : Int) :
    List AccountSyncJob :=
  store.map fun r =>
    if r.id = id then { r with attempts := r.attempts + 1, updatedAt := now } else r

/-- One marking step of `Watcher.processLLMSyncJobs`:
`UpdateStatus(id, processing, nil)` followed by `IncrementAttempts(id)`. -/
def llmMarkStep (now : Int) (s : List LLMSyncJob) (j : LLMSyncJob) : List LLMSyncJob :=
  llmIncrementAttempts (llmUpdateStatus s j.id .processing none now) j.id now

/-- The row transformation a marking step performs on the selected job. -/
def llmMarkXform (now : Int) (r : LLMSyncJob) : LLMSyncJob :=
  { r with status := .processing, lastError := none, updatedAt := now,
           lastSyncedAt := some now, attempts := r.attempts + 1 }

/-- Result of one extraction-job sweep. -/
structure LLMSweepResult where
  store : List LLMSyncJob
  dispatched : List LLMSyncJob
  trace : List WEvent
deriving Repr

/-- `Watcher.processLLMSyncJobs`: gather the three due-sets (limit 3 each),
concatenate, and when nonempty mark every selected job processing and
increment its attempts, then dispatch the whole batch to the processor. -/
def watcherProcessLLMSyncJobs (store : List LLMSyncJob) (now : Int) : LLMSweepResult :=
  let allJobs := llmGetPendingJobs store 3 ++ llmGetFailedJobs store 3
      ++ llmGetProcessingJobs store 3
  if allJobs.isEmpty then ⟨store, [], []⟩
  else
    { store := allJobs.foldl (llmMarkStep now) store
      dispatched := allJobs
      trace := allJobs.flatMap (fun j => [WEvent.mark j.id, WEvent.incr j.id])
        ++ [WEvent.dispatch] }

/-- `Watcher.processEmailSyncJobs`: gather the three due-sets with limit 1
each and dispatch only the head of the concatenation. -/
def watcherEmailDispatched (store : List EmailSyncJob) : List EmailSyncJob :=
  let allJobs := emailGetPendingJobs store 1 ++ emailGetFailedJobs store 1
      ++ emailGetProcessingJobs store 1
  match allJobs with
  | [] => []
  | j :: _ => [j]

/-- `AccountSyncJobRepository` due-set read used by the account sweep. -/
def accountGetDue (store : List AccountSyncJob) (st : AccountStatus) (limit : Nat) :
    List AccountSyncJob :=
  accountListDue store st limit

/-- `Watcher.processAccountSyncJobs`: gather the three due-sets with limit 5
each and dispatch every gathered job. -/
def watcherAccountDispatched (store : List AccountSyncJob) : List AccountSyncJob :=
  accountGetDue store .pending 5 ++ accountGetDue store .failed 5
    ++ accountGetDue store .processing 5

/-! ### Lookup behaviour of the marking fold -/

theorem findLLMJob_update (s : List LLMSyncJob) (target : String) (st : LLMStatus)
    (e : Option String) (now : Int) (id : String) :
    findLLMJob (llmUpdateStatus s target st e now) id =
      (findLLMJob s id).map (fun r =>
        if r.id = target then
          { r with status := st, lastError := e, updatedAt := now,
                   lastSyncedAt := some now }
        else r) := by
  unfold findLLMJob llmUpdateStatus
  refine find?_map_pres _ _ (fun r => ?_) s
  by_cases h : r.id = target <;> simp [h]

theorem findLLMJob_incr (s : List LLMSyncJob) (target : String) (now : Int)
    (id : String) :
    findLLMJob (llmIncrementAttempts s target now) id =
      (findLLMJob s id).map (fun r =>
        if r.id = target then { r with attempts := r.attempts + 1, updatedAt := now }
        else r) := by
  unfold findLLMJob llmIncrementAttempts
  refine find?_map_pres _ _ (fun r => ?_) s
  by_cases h : r.id = target <;> simp [h]

theorem findLLMJob_markStep (s : List LLMSyncJob) (j' : LLMSyncJob) (now : Int)
    (id : String) :
    findLLMJob (llmMarkStep now s j') id =
      (findLLMJob s id).map (fun r =>
        if r.id = j'.id then llmMarkXform now r else r) := by
  unfold llmMarkStep
  rcases hfind : findLLMJob s id with _ | r
  · rw [findLLMJob_incr, findLLMJob_update, hfind]
    rfl
  · rw [findLLMJob_incr, findLLMJob_update, hfind]
    by_cases h : r.id = j'.id <;> simp [h, llmMarkXform]

theorem findLLMJob_fold_ne (L : List LLMSyncJob) (s : List LLMSyncJob) (now : Int)
    (id : String) (h : ∀ j' ∈ L, j'.id ≠ id) :
    findLLMJob (L.foldl (llmMarkStep now) s) id = findLLMJob s id := by
  induction L generalizing s with
  | nil => rfl
  | cons a t ih =>
    rw [List.foldl_cons, ih _ (fun j' hj' => h j' (List.mem_cons_of_mem a hj')),
      findLLMJob_markStep]
    rcases hfind : findLLMJob s id with _ | r
    · rfl
    · have hr : r.id = id := by
        have := List.find?_some hfind
        simpa using this
      have : r.id ≠ a.id := by
        rw [hr]
        exact fun hEq => h a (List.mem_cons_self a t) hEq.symm
      simp [this]

theorem findLLMJob_fold_mem (L : List LLMSyncJob) (s : List LLMSyncJob) (now : Int)
    (j : LLMSyncJob) (hNodup : (L.map (·.id)).Nodup) (hj : j ∈ L) :
    findLLMJob (L.foldl (llmMarkStep now) s) j.id =
      (findLLMJob s j.id).map (llmMarkXform now) := by
  induction L generalizing s with
  | nil => cases hj
  | cons a t ih =>
    rw [List.foldl_cons]
    rcases List.mem_cons.mp hj with rfl | hj'
    · have hnot : ∀ j' ∈ t, j'.id ≠ j.id := by
        intro j' hj' hEq
        have : j.id ∈ t.map (·.id) := hEq ▸ List.mem_map_of_mem _ hj'
        exact (List.nodup_cons.mp (by simpa using hNodup)).1 this
      rw [findLLMJob_fold_ne t _ now j.id hnot, findLLMJob_markStep]
      rcases hfind : findLLMJob s j.id with _ | r
      · rfl
      · have hr : r.id = j.id := by
          have := List.find?_some hfind
          simpa using this
        simp [hr]
    · have hne : j.id ≠ a.id := by
        intro hEq
        have : j.id ∈ t.map (·.id) := List.mem_map_of_mem _ hj'
        rw [hEq] at this
        exact (List.nodup_cons.mp (by simpa using hNodup)).1 this
      rw [ih _ (List.nodup_cons.mp (by simpa using hNodup)).2 hj', findLLMJob_markStep]
      rcases hfind : findLLMJob s j.id with _ | r
      · rfl
      · have hr : r.id = j.id := by
          have := List.find?_some hfind
          simpa using this
        simp [hr, hne]

/-! ### Structure of the selected batch -/

theorem llmListDue_mem {store : List LLMSyncJob} {st : LLMStatus} {n : Nat}
    {j : LLMSyncJob} (hj : j ∈ llmListDue store st n) : j ∈ store ∧ j.status = st := by
  unfold llmListDue at hj
  have hj' := List.mem_of_mem_take hj
  have := (List.mem_insertionSort llmFairLE).mp hj'
  have hmem := List.mem_filter.mp this
  exact ⟨hmem.1, by simpa using hmem.2⟩

theorem llmListDue_ids_nodup (store : List LLMSyncJob) (st : LLMStatus) (n : Nat)
    (h : (store.map (·.id)).Nodup) : ((llmListDue store st n).map (·.id)).Nodup := by
  unfold llmListDue
  have h1 : ((store.filter (fun j => j.status = st)).map
      (fun j : LLMSyncJob => j.id)).Nodup :=
    ((List.filter_sublist store).map (fun j : LLMSyncJob => j.id)).nodup h
  have h2 : (((store.filter (fun j => j.status = st)).insertionSort llmFairLE).map
      (fun j : LLMSyncJob => j.id)).Nodup :=
    ((List.perm_insertionSort llmFairLE _).map (fun j : LLMSyncJob => j.id)).nodup_iff.mpr h1
  exact ((List.take_sublist _ _).map (fun j : LLMSyncJob => j.id)).nodup h2

/-- The batch selected by the extraction sweep. -/
def llmSelected (store : List LLMSyncJob) : List LLMSyncJob :=
  llmGetPendingJobs store 3 ++ llmGetFailedJobs store 3 ++ llmGetProcessingJobs store 3

theorem llmSelected_mem {store : List LLMSyncJob} {j : LLMSyncJob}
    (hj : j ∈ llmSelected store) : j ∈ store := by
  unfold llmSelected llmGetPendingJobs llmGetFailedJobs llmGetProcessingJobs at hj
  rcases List.mem_append.mp hj with h | h
  · rcases List.mem_append.mp h with h' | h'
    · exact (llmListDue_mem h').1
    · exact (llmListDue_mem h').1
  · exact (llmListDue_mem h).1

theorem llmSelected_ids_nodup (store : List LLMSyncJob)
    (h : (store.map (·.id)).Nodup) : ((llmSelected store).map (·.id)).Nodup := by
  unfold llmSelected llmGetPendingJobs llmGetFailedJobs llmGetProcessingJobs
  have hp := llmListDue_ids_nodup store .pending 3 h
  have hf := llmListDue_ids_nodup store .failed 3 h
  have hpr := llmListDue_ids_nodup store .processing 3 h
  have disj : ∀ (s1 s2 : LLMStatus), s1 ≠ s2 →
      ∀ a ∈ (llmListDue store s1 3).map (·.id),
        a ∉ (llmListDue store s2 3).map (·.id) := by
    intro s1 s2 hne a ha hb
    rcases List.mem_map.mp ha with ⟨j1, hj1, rfl⟩
    rcases List.mem_map.mp hb with ⟨j2, hj2, hid⟩
    obtain ⟨hj1s, hst1⟩ := llmListDue_mem hj1
    obtain ⟨hj2s, hst2⟩ := llmListDue_mem hj2
    have : j1 = j2 := id_inj_of_nodup (·.id) h hj1s hj2s hid.symm
    subst this
    exact hne (hst1.symm.trans hst2)
  rw [List.map_append, List.map_append, List.nodup_append, List.nodup_append]
  refine ⟨⟨hp, hf, ?_⟩, hpr, ?_⟩
  · intro a ha
    exact disj .pending .failed (by decide) a ha
  · intro a ha
    rcases List.mem_append.mp ha with h' | h'
    · exact disj .pending .processing (by decide) a h'
    · exact disj .failed .processing (by decide) a h'

/-! ### Spec-modelled per-job dispatch for the discovery and account sweeps

`Watcher.processEmailJob` and `Watcher.processAccountJob` (the per-job
wrappers that the discovery and account sweeps dispatch through) are not part
of the sources; only their callers are.  The spec (§4.2 step 3) prescribes
the same mark-then-dispatch discipline as the extraction sweep. -/

/-- Modelled from the spec: missing `Watcher.processEmailJob`.  Per §4.2 the
scheduler "marks every selected job `processing` and increments its attempt
counter *before* doing any work", then dispatches the job to the processor. -/
def processEmailJobModel (store : List EmailSyncJob) (j : EmailSyncJob) (now : Int) :
    List EmailSyncJob × List WEvent :=
  (emailIncrementAttempts (emailUpdateStatus store j.id .processing none now) j.id now,
    [WEvent.mark j.id, WEvent.incr j.id, WEvent.dispatch])

/-- Modelled from the spec: missing `Watcher.processAccountJob`, same
mark-then-dispatch discipline as `processEmailJobModel`. -/
def processAccountJobModel (store : List AccountSyncJob) (j : AccountSyncJob)
    (now : Int) : List AccountSyncJob × List WEvent :=
  (accountIncrementAttempts (accountUpdateStatus store j.id .processing none now) j.id
      now,
    [WEvent.mark j.id, WEvent.incr j.id, WEvent.dispatch])

theorem findEmailJob_update (s : List EmailSyncJob) (target : String)
    (st : EmailStatus) (e : Option String) (now : Int) (id : String) :
    findEmailJob (emailUpdateStatus s target st e now) id =
      (findEmailJob s id).map (fun r =>
        if r.id = target then
          { r with status := st, lastError := e, updatedAt := now,
                   processedAt := if st = .synced ∨ st = .completed ∨ st = .failed
                     then some now else none }
        else r) := by
  unfold findEmailJob emailUpdateStatus
  refine find?_map_pres _ _ (fun r => ?_) s
  by_cases h : r.id = target <;> simp [h]

theorem findEmailJob_incr (s : List EmailSyncJob) (target : String) (now : Int)
    (id : String) :
    findEmailJob (emailIncrementAttempts s target now) id =
      (findEmailJob s id).map (fun r =>
        if r.id = target then { r with attempts := r.attempts + 1, updatedAt := now }
        else r) := by
  unfold findEmailJob emailIncrementAttempts
  refine find?_map_pres _ _ (fun r => ?_) s
  by_cases h : r.id = target <;> simp [h]

theorem findAccountJob_update (s : List AccountSyncJob) (target : String)
    (st : AccountStatus) (e : Option String) (now : Int) (id : String) :
    findAccountJob (accountUpdateStatus s target st e now) id =
      (findAccountJob s id).map (fun r =>
        if r.id = target then
          if st = .completed ∨ st = .failed then
            { r with status := st, lastError := e, updatedAt := now,
                     processedAt := some now }
          else { r with status := st, lastError := e, updatedAt := now }
        else r) := by
  unfold findAccountJob accountUpdateStatus
  refine find?_map_pres _ _ (fun r => ?_) s
  by_cases h : r.id = target
  · by_cases h2 : st = .completed ∨ st = .failed <;> simp [h, h2]
  · simp [h]

theorem findAccountJob_incr (s : List AccountSyncJob) (target : String) (now : Int)
    (id : String) :
    findAccountJob (accountIncrementAttempts s target now) id =
      (findAccountJob s id).map (fun r =>
        if r.id = target then { r with attempts := r.attempts + 1, updatedAt := now }
        else r) := by
  unfold findAccountJob accountIncrementAttempts
  refine find?_map_pres _ _ (fun r => ?_) s
  by_cases h : r.id = target <;> simp [h]

/-! ### C3 -/

/-- C3: on an extraction sweep, every selected job is observable in the store
with status `processing` and its attempt counter incremented, and the trace
places every mark and increment event strictly before the dispatch event; the
(spec-modelled) discovery and account per-job dispatches obey the same
discipline. -/
theorem C3_mark_processing_before_dispatch (store : List LLMSyncJob)
    (es : List EmailSyncJob) (as : List AccountSyncJob) (ej : EmailSyncJob)
    (aj : AccountSyncJob) (now : Int) (hN : (store.map (·.id)).Nodup)
    (hE : (es.map (·.id)).Nodup) (hA : (as.map (·.id)).Nodup) (hej : ej ∈ es)
    (haj : aj ∈ as) :
    (∀ j ∈ (watcherProcessLLMSyncJobs store now).dispatched,
        findLLMJob (watcherProcessLLMSyncJobs store now).store j.id
            = some (llmMarkXform now j)
          ∧ (watcherProcessLLMSyncJobs store now).trace.getLast? = some .dispatch
          ∧ WEvent.mark j.id ∈ (watcherProcessLLMSyncJobs store now).trace.dropLast
          ∧ WEvent.incr j.id ∈ (watcherProcessLLMSyncJobs store now).trace.dropLast)
      ∧ (findEmailJob (processEmailJobModel es ej now).1 ej.id
          = some { ej with status := .processing, lastError := none, updatedAt := now,
                           processedAt := none, attempts := ej.attempts + 1 }
        ∧ (processEmailJobModel es ej now).2
          = [WEvent.mark ej.id, WEvent.incr ej.id, WEvent.dispatch])
      ∧ (findAccountJob (processAccountJobModel as aj now).1 aj.id
          = some { aj with status := .processing, lastError := none, updatedAt := now,
                           attempts := aj.attempts + 1 }
        ∧ (processAccountJobModel as aj now).2
          = [WEvent.mark aj.id, WEvent.incr aj.id, WEvent.dispatch]) := by
  refine ⟨?_, ⟨?_, rfl⟩, ⟨?_, rfl⟩⟩
  · intro j hj
    unfold watcherProcessLLMSyncJobs at hj ⊢
    rw [show (llmGetPendingJobs store 3 ++ llmGetFailedJobs store 3
        ++ llmGetProcessingJobs store 3) = llmSelected store from rfl] at hj ⊢
    by_cases hempty : (llmSelected store).isEmpty = true
    · rw [if_pos hempty] at hj
      cases hj
    · rw [if_neg hempty] at hj ⊢
      simp only at hj ⊢
      refine ⟨?_, ?_, ?_, ?_⟩
      · rw [findLLMJob_fold_mem _ _ now j (llmSelected_ids_nodup store hN) hj]
        have hjs : j ∈ store := llmSelected_mem hj
        have hfound : findLLMJob store j.id = some j :=
          find?_eq_self_of_nodup (fun r : LLMSyncJob => r.id) store hN j hjs
        rw [hfound]
        rfl
      · simp
      · rw [List.dropLast_concat]
        exact List.mem_flatMap.mpr ⟨j, hj, by simp⟩
      · rw [List.dropLast_concat]
        exact List.mem_flatMap.mpr ⟨j, hj, by simp⟩
  · unfold processEmailJobModel
    rw [findEmailJob_incr, findEmailJob_update]
    have hfound : findEmailJob es ej.id = some ej :=
      find?_eq_self_of_nodup (fun r : EmailSyncJob => r.id) es hE ej hej
    rw [hfound]
    simp
  · unfold processAccountJobModel
    rw [findAccountJob_incr, findAccountJob_update]
    have hfound : findAccountJob as aj.id = some aj :=
      find?_eq_self_of_nodup (fun r : AccountSyncJob => r.id) as hA aj haj
    rw [hfound]
    simp

/-! ### C9 -/

/-- C9: the discovery sweep dispatches at most one job, the head of the
concatenated pending/failed/stuck-processing due-sets, while the extraction
and account sweeps dispatch their entire combined batch. -/
theorem C9_discovery_serialized_one_job (es : List EmailSyncJob)
    (ls : List LLMSyncJob) (as : List AccountSyncJob) (now : Int) :
    (watcherEmailDispatched es).length ≤ 1
      ∧ watcherEmailDispatched es
        = (emailGetPendingJobs es 1 ++ emailGetFailedJobs es 1
            ++ emailGetProcessingJobs es 1).take 1
      ∧ (watcherProcessLLMSyncJobs ls now).dispatched
        = llmGetPendingJobs ls 3 ++ llmGetFailedJobs ls 3 ++ llmGetProcessingJobs ls 3
      ∧ watcherAccountDispatched as
        = accountGetDue as .pending 5 ++ accountGetDue as .failed 5
            ++ accountGetDue as .processing 5 := by
  refine ⟨?_, ?_, ?_, rfl⟩
  · unfold watcherEmailDispatched
    rcases emailGetPendingJobs es 1 ++ emailGetFailedJobs es 1
        ++ emailGetProcessingJobs es 1 with _ | ⟨j, t⟩ <;> simp
  · unfold watcherEmailDispatched
    rcases emailGetPendingJobs es 1 ++ emailGetFailedJobs es 1
        ++ emailGetProcessingJobs es 1 with _ | ⟨j, t⟩ <;> simp
  · unfold watcherProcessLLMSyncJobs
    by_cases hempty : (llmGetPendingJobs ls 3 ++ llmGetFailedJobs ls 3
        ++ llmGetProcessingJobs ls 3).isEmpty = true
    · rw [if_pos hempty]
      exact (List.isEmpty_iff.mp hempty).symm
    · rw [if_neg hempty]

/-! ## External collaborators

The Gmail client, the account repository and the OpenRouter client are
modelled as environments of explicit functions returning `Except String _`,
mirroring the Go interfaces.  Provider interactions are additionally recorded
as an event trace so that call ordering is provable. -/

/-- Service constants (internal/service/email_processor.go). -/
def MaxEmailsPerAccount : Int := 10000

/-- `EmailsPerPage = 50`. -/
def EmailsPerPage : Int := 50

/-- `5 * time.Minute` on the model's timeline (seconds). -/
def fiveMinutes : Int := 300

/-- `service.MessageIDFetchResult` (TotalFetched is never read by the core). -/
structure MessageIDFetchResult where
  messageIDs : List String
  nextPageToken : String
deriving DecidableEq, Repr

/-- `service.TokenRefreshResult`. -/
structure TokenRefreshResult where
  accessToken : String
  expiresAt : Int
  refreshToken : String
deriving DecidableEq, Repr

/-- `service.EmailMessage` restricted to the fields the processors read. -/
structure EmailMessage where
  fromAddr : String
  subject : String
  bodyText : String
  bodyHTML : String
deriving DecidableEq, Repr

/-- `buildGmailQuery`: the query is `"in:inbox -in:spam"` plus an optional
`after:` date.  The three shapes are kept; the date formatting itself is an
opaque provider input. -/
inductive GmailQuery where
  | initialWindow
  | sinceLast (t : Int)
  | base
deriving DecidableEq, Repr

/-- Gmail-call trace events. -/
inductive GEvent where
  | refreshCall
  | fetchIdsCall (maxResults : Int)
  | fetchEmailCall (messageId : String)
deriving DecidableEq, Repr

/-- True on events that contact the message provider (not the token
endpoint). -/
def isProviderCall : GEvent → Bool
  | .refreshCall => false
  | .fetchIdsCall _ => true
  | .fetchEmailCall _ => true

/-- Every provider call in the trace happens after a refresh call: the prefix
that precedes the first refresh call contains no provider call. -/
def refreshBeforeProvider (tr : List GEvent) : Prop :=
  ∀ e ∈ tr.takeWhile (fun e => e ≠ GEvent.refreshCall), isProviderCall e = false

/-- The Gmail client plus the account repository operations the processors
use. -/
structure GmailEnv where
  getAccount : String → Except String Account
  fetchMessageIDs : String → GmailQuery → Int → String → Except String MessageIDFetchResult
  fetchEmailByID : String → String → Except String EmailMessage
  refreshAccessToken : String → Except String TokenRefreshResult
  updateTokens : String → String → String → Int → Except String Unit

/-- `isTokenExpired` (identical in EmailProcessor and LLMProcessor): true when
there is no stored expiry, or `time.Now().Add(5*time.Minute).After(expiresAt)`. -/
def isTokenExpired (now : Int) (expiresAt : Option Int) : Bool :=
  match expiresAt with
  | none => true
  | some e => decide (now + fiveMinutes > e)

/-- `refreshToken` (identical in both processors): call the token endpoint,
persist the new tokens, return the new access token. -/
def refreshTokenOp (env : GmailEnv) (account : Account) : Except String String :=
  match account.refreshToken with
  | none => .error "no refresh token available"
  | some rt =>
    match env.refreshAccessToken rt with
    | .error e => .error ("failed to refresh token: " ++ e)
    | .ok result =>
      match env.updateTokens account.id result.accessToken result.refreshToken
          result.expiresAt with
      | .error e => .error ("failed to update tokens in database: " ++ e)
      | .ok _ => .ok result.accessToken

/-! ## Discovery processor (`EmailProcessor.ProcessEmailSyncJob`) -/

/-- `buildGmailQuery`. -/
def buildGmailQuery (job : EmailSyncJob) : GmailQuery :=
  if job.syncType = .initial then .initialWindow
  else
    match job.lastSyncedAt with
    | some t => .sinceLast t
    | none => .base

/-- Row template for the extraction jobs a discovery page creates:
`last_synced_at = NULL` (new-job priority), zero attempts. -/
def newLLMJob (id accountId messageId : String) (now : Int) : LLMSyncJob :=
  { id := id, accountId := accountId, messageId := messageId,
    status := .pending, lastSyncedAt := none, attempts := 0, lastError := none,
    createdAt := now, updatedAt := now, processedAt := none }

/-- Result of one discovery-processor invocation: Go outcome, the in-place
updated job snapshot, both stores, and the Gmail trace. -/
structure EmailProcResult where
  outcome : Except String Unit
  job : EmailSyncJob
  emailStore : List EmailSyncJob
  llmStore : List LLMSyncJob
  trace : List GEvent

/-- `ProcessEmailSyncJob` after credential resolution: capacity check, page
fetch, extraction-job bulk creation, progress write, in-place job update.
`newIds` supplies the `uuid.New()` values. -/
def processEmailSyncJobFetch (env : GmailEnv) (now : Int) (newIds : Nat → String)
    (job : EmailSyncJob) (emailStore : List EmailSyncJob) (llmStore : List LLMSyncJob)
    (accessToken : String) (trace0 : List GEvent) : EmailProcResult :=
  let query := buildGmailQuery job
  let remainingEmails := MaxEmailsPerAccount - job.emailsFetched
  if remainingEmails ≤ 0 then
    -- "Account has reached max emails limit", return nil: job is complete
    ⟨.ok (), job, emailStore, llmStore, trace0⟩
  else
    let batchSize := if remainingEmails < EmailsPerPage then remainingEmails
      else EmailsPerPage
    let pageToken := job.pageToken.getD ""
    match env.fetchMessageIDs accessToken query batchSize pageToken with
    | .error e =>
      ⟨.error ("failed to fetch message IDs: " ++ e), job, emailStore, llmStore,
        trace0 ++ [.fetchIdsCall batchSize]⟩
    | .ok result =>
      let llmStore' :=
        if result.messageIDs.isEmpty then llmStore
        else llmBulkCreate llmStore
          (result.messageIDs.enum.map fun p => newLLMJob (newIds p.1) job.accountId p.2 now)
      let newEmailsFetched := job.emailsFetched + (result.messageIDs.length : Int)
      let nextPageToken := if result.nextPageToken = "" then none
        else some result.nextPageToken
      let emailStore' := emailUpdateProgress emailStore job.id newEmailsFetched
        nextPageToken now
      ⟨.ok (), { job with emailsFetched := newEmailsFetched, pageToken := nextPageToken },
        emailStore', llmStore', trace0 ++ [.fetchIdsCall batchSize]⟩

/-- `EmailProcessor.ProcessEmailSyncJob`: account lookup, token validation,
refresh when expired, then the fetch phase. -/
def processEmailSyncJob (env : GmailEnv) (now : Int) (newIds : Nat → String)
    (job : EmailSyncJob) (emailStore : List EmailSyncJob) (llmStore : List LLMSyncJob) :
    EmailProcResult :=
  match env.getAccount job.accountId with
  | .error e => ⟨.error ("failed to get account: " ++ e), job, emailStore, llmStore, []⟩
  | .ok account =>
    match account.accessToken, account.refreshToken with
    | some tok0, some _ =>
      if isTokenExpired now account.accessTokenExpiresAt then
        match refreshTokenOp env account with
        | .error e =>
          ⟨.error ("failed to refresh token: " ++ e), job, emailStore, llmStore,
            [.refreshCall]⟩
        | .ok newTok =>
          processEmailSyncJobFetch env now newIds job emailStore llmStore newTok
            [.refreshCall]
      else
        processEmailSyncJobFetch env now newIds job emailStore llmStore tok0 []
    | _, _ => ⟨.error "account missing tokens", job, emailStore, llmStore, []⟩

/-! ## OpenRouter client (internal/openrouter/client.go) -/

/-- JSON objects carried around verbatim (metadata, raw LLM responses) are
opaque to the core; a key/value list stands in for `map[string]interface{}`. -/
abbrev JSONB := List (String × String)

/-- `openrouter.EmailData`. -/
structure EmailData where
  fromAddr : String
  subject : String
  body : String
deriving DecidableEq, Repr

/-- `openrouter.PaymentData` (amounts as `Rat`, see file header). -/
structure PaymentData where
  merchantName : String
  description : String
  amount : Option Rat
  currency : String
  due : String
  recurrence : Option String
  status : String
  category : String
  externalReference : String
  metadata : JSONB
deriving DecidableEq, Repr

/-- The Go zero value `PaymentData{}` used as the "not a payment" slot. -/
def emptyPaymentData : PaymentData :=
  { merchantName := "", description := "", amount := none, currency := "",
    due := "", recurrence := none, status := "", category := "",
    externalReference := "", metadata := [] }

/-- `Client.isValidPayment`: merchant, a positive amount, currency, due and
status must all be present. -/
def isValidPayment (payment : PaymentData) : Bool :=
  if payment.merchantName = "" then false
  else
    match payment.amount with
    | none => false
    | some a =>
      if a ≤ 0 then false
      else if payment.currency = "" then false
      else if payment.due = "" then false
      else if payment.status = "" then false
      else true

/-- The HTTP + JSON-decode part of `Client.ExtractPayment`: one LLM round
trip returning the decoded `PaymentData` and the raw response, or an
infrastructure error (network, API status, malformed JSON). -/
structure ORouterEnv where
  complete : EmailData → Except String (PaymentData × JSONB)

/-- `Client.ExtractPayment`: decode, then gate through `isValidPayment`; an
invalid candidate is "not a payment", not an error. -/
def extractPayment (env : ORouterEnv) (email : EmailData) :
    Except String (Option PaymentData × JSONB) :=
  match env.complete email with
  | .error e => .error e
  | .ok (paymentData, raw) =>
    if isValidPayment paymentData then .ok (some paymentData, raw)
    else .ok (none, raw)

/-- `Client.BatchExtractPayments`: sequential extraction, first error aborts
the batch; a "not a payment" slot becomes the zero `PaymentData`. -/
def batchExtractPayments (env : ORouterEnv) :
    List EmailData → Except String (List PaymentData × List JSONB)
  | [] => .ok ([], [])
  | email :: rest =>
    match extractPayment env email with
    | .error e => .error ("failed to extract payment: " ++ e)
    | .ok (payment?, raw) =>
      match batchExtractPayments env rest with
      | .error e => .error e
      | .ok (ps, rs) => .ok ((payment?.getD emptyPaymentData) :: ps, raw :: rs)

/-! ## Due-date parsing

`time.Parse(time.RFC3339, due)` with a fallback to
`time.Parse("2006-01-02T15:04:05", due)`.  The model implements the two
layouts (without fractional seconds, which neither the prompt contract nor
any claim exercises): a 19-character date-time core with component range
checks, plus `Z`/`±HH:MM` offset for RFC 3339. -/

/-- A parsed wall-clock date-time with a UTC offset in minutes. -/
structure DateTime where
  year : Nat
  month : Nat
  day : Nat
  hour : Nat
  minute : Nat
  second : Nat
  offsetMinutes : Int
deriving DecidableEq, Repr

/-- Decimal digits to a number. -/
def digitsToNat (cs : List Char) : Nat :=
  cs.foldl (fun n c => n * 10 + (c.toNat - 48)) 0

/-- Gregorian leap year, as Go's time package computes it. -/
def isLeapYear (y : Nat) : Bool :=
  y % 4 = 0 && (y % 100 ≠ 0 || y % 400 = 0)

/-- Days in a month, as Go's time package validates the day component. -/
def daysInMonth (y m : Nat) : Nat :=
  if m = 2 then (if isLeapYear y then 29 else 28)
  else if m = 4 ∨ m = 6 ∨ m = 9 ∨ m = 11 then 30
  else 31

/-- The 19-character layout `2006-01-02T15:04:05` with component range
checks. -/
def parseDateTime19 : List Char → Option DateTime
  | [y1, y2, y3, y4, '-', m1, m2, '-', d1, d2, 'T',
      h1, h2, ':', mi1, mi2, ':', s1, s2] =>
    if [y1, y2, y3, y4, m1, m2, d1, d2, h1, h2, mi1, mi2, s1, s2].all Char.isDigit then
      let year := digitsToNat [y1, y2, y3, y4]
      let month := digitsToNat [m1, m2]
      let day := digitsToNat [d1, d2]
      let hour := digitsToNat [h1, h2]
      let minute := digitsToNat [mi1, mi2]
      let second := digitsToNat [s1, s2]
      if 1 ≤ month ∧ month ≤ 12 ∧ 1 ≤ day ∧ day ≤ daysInMonth year month
          ∧ hour ≤ 23 ∧ minute ≤ 59 ∧ second ≤ 59 then
        some ⟨year, month, day, hour, minute, second, 0⟩
      else none
    else none
  | _ => none

/-- RFC 3339 offset suffix: `Z` or `±HH:MM`. -/
def parseOffset : List Char → Option Int
  | ['Z'] => some 0
  | [sign, h1, h2, ':', m1, m2] =>
    if (sign = '+' ∨ sign = '-') ∧ [h1, h2, m1, m2].all Char.isDigit then
      let hh := digitsToNat [h1, h2]
      let mm := digitsToNat [m1, m2]
      if hh ≤ 23 ∧ mm ≤ 59 then
        some (if sign = '+' then ((hh * 60 + mm : Nat) : Int)
          else -((hh * 60 + mm : Nat) : Int))
      else none
    else none
  | _ => none

/-- `time.Parse(time.RFC3339, s)` (non-fractional forms). -/
def parseRFC3339 (s : String) : Option DateTime :=
  let cs := s.toList
  match parseDateTime19 (cs.take 19) with
  | none => none
  | some dt =>
    match parseOffset (cs.drop 19) with
    | none => none
    | some off => some { dt with offsetMinutes := off }

/-- The processor's due-date parse: RFC 3339 first, then the plain
`2006-01-02T15:04:05` layout. -/
def parseDue (s : String) : Option DateTime :=
  match parseRFC3339 s with
  | some d => some d
  | none => parseDateTime19 s.toList

/-! ## Extraction processor (`LLMProcessor`) -/

/-- `models.Payment` (times as `Int`, amount as `Rat`, date as `DateTime`). -/
structure Payment where
  id : String
  accountId : String
  merchant : String
  description : Option String
  amount : Rat
  currency : String
  date : DateTime
  recurrence : Option String
  status : String
  category : Option String
  externalReference : Option String
  metadata : JSONB
  rawLlmResponse : JSONB
  createdAt : Int
  updatedAt : Int
deriving DecidableEq, Repr

/-- `service.stringPtr`: empty string becomes nil. -/
def stringPtr (s : String) : Option String :=
  if s = "" then none else some s

/-- One pending `UpdateStatus` call recorded by the extraction processor. -/
structure StatusWrite where
  jobId : String
  status : LLMStatus
  lastError : Option String
deriving DecidableEq, Repr

/-- The per-slot result loop body of `processAccountJobs` (validity check,
due-date parse, payment construction, job status). -/
def processSlot (now : Int) (accountId : String) (newId : String)
    (job : LLMSyncJob) (paymentData : PaymentData) (rawResp : JSONB) :
    StatusWrite × Option Payment :=
  if paymentData.merchantName = "" then (⟨job.id, .completed, none⟩, none)
  else
    match paymentData.amount with
    | none => (⟨job.id, .completed, none⟩, none)
    | some amt =>
      match parseDue paymentData.due with
      | none => (⟨job.id, .failed, some "failed to parse due date"⟩, none)
      | some dueDate =>
        (⟨job.id, .completed, none⟩, some
          { id := newId, accountId := accountId,
            merchant := paymentData.merchantName,
            description := stringPtr paymentData.description, amount := amt,
            currency := paymentData.currency, date := dueDate,
            recurrence := paymentData.recurrence, status := paymentData.status,
            category := stringPtr paymentData.category,
            externalReference := stringPtr paymentData.externalReference,
            metadata := paymentData.metadata, rawLlmResponse := rawResp,
            createdAt := now, updatedAt := now })

/-- The result loop over all slots; `newIds` supplies the payment UUIDs,
indexed by slot position. -/
def processSlots (now : Int) (accountId : String) (newIds : Nat → String) :
    Nat → List (LLMSyncJob × PaymentData × JSONB) → List StatusWrite × List Payment
  | _, [] => ([], [])
  | k, (job, paymentData, raw) :: rest =>
    let (w, payment?) := processSlot now accountId (newIds k) job paymentData raw
    let (ws, ps) := processSlots now accountId newIds (k + 1) rest
    (w :: ws, payment?.toList ++ ps)

/-- `UpdateStatus(jobID, failed, msg)` for every job of the sub-batch. -/
def failAll (jobs : List LLMSyncJob) (msg : String) : List StatusWrite :=
  jobs.map fun j => ⟨j.id, .failed, some msg⟩

/-- The per-job email fetch loop: a fetch failure fails that job and the loop
continues; fetched emails keep their job association (`jobIndexMap`). -/
def fetchStage (env : GmailEnv) (accessToken : String) :
    List LLMSyncJob → List StatusWrite × List (EmailData × LLMSyncJob) × List GEvent
  | [] => ([], [], [])
  | j :: rest =>
    match env.fetchEmailByID accessToken j.messageId with
    | .error e =>
      (⟨j.id, .failed, some ("failed to fetch email: " ++ e)⟩
          :: (fetchStage env accessToken rest).1,
        (fetchStage env accessToken rest).2.1,
        .fetchEmailCall j.messageId :: (fetchStage env accessToken rest).2.2)
    | .ok msg =>
      ((fetchStage env accessToken rest).1,
        (⟨msg.fromAddr, msg.subject, msg.bodyHTML⟩, j)
          :: (fetchStage env accessToken rest).2.1,
        .fetchEmailCall j.messageId :: (fetchStage env accessToken rest).2.2)

/-- Everything `processAccountJobs` decides for one account's sub-batch: the
status writes it will issue (in order), the payments it will bulk-insert, the
Gmail trace, and the Go return value.  The plan depends only on the
environments and the sub-batch, never on the job store, so applying it is
exactly the store effect of the Go code. -/
structure AccountPlan where
  writes : List StatusWrite
  newPayments : List Payment
  trace : List GEvent
  outcome : Except String Unit

/-- The post-credential phase of `processAccountJobs`: fetch every email,
batch-extract, process the result slots.  `tr0` is the trace of the
credential phase. -/
def accountFetchPlan (genv : GmailEnv) (orenv : ORouterEnv) (now : Int)
    (newIds : Nat → String) (accountId : String) (jobs : List LLMSyncJob)
    (accessToken : String) (tr0 : List GEvent) : AccountPlan :=
  let (fetchWrites, pairs, ftrace) := fetchStage genv accessToken jobs
  if pairs.isEmpty then
    -- "No emails to process", return nil
    ⟨fetchWrites, [], tr0 ++ ftrace, .ok ()⟩
  else
    match batchExtractPayments orenv (pairs.map (·.1)) with
    | .error e =>
      -- the LLM error re-marks every job of the sub-batch failed
      ⟨fetchWrites ++ failAll jobs ("LLM extraction failed: " ++ e), [],
        tr0 ++ ftrace, .error ("LLM extraction failed: " ++ e)⟩
    | .ok (payments, raws) =>
      let slots := (pairs.map (·.2)).zip (payments.zip raws)
      let (slotWrites, newPays) := processSlots now accountId newIds 0
        (slots.map fun p => (p.1, p.2.1, p.2.2))
      ⟨fetchWrites ++ slotWrites, newPays, tr0 ++ ftrace, .ok ()⟩

/-- `LLMProcessor.processAccountJobs` as a plan computation. -/
def accountJobsPlan (genv : GmailEnv) (orenv : ORouterEnv) (now : Int)
    (newIds : Nat → String) (accountId : String) (jobs : List LLMSyncJob) :
    AccountPlan :=
  match genv.getAccount accountId with
  | .error e =>
    ⟨failAll jobs ("failed to get account: " ++ e), [], [],
      .error ("failed to get account: " ++ e)⟩
  | .ok account =>
    match account.accessToken, account.refreshToken with
    | some tok0, some _ =>
      let cred : Except String (String × List GEvent) :=
        if isTokenExpired now account.accessTokenExpiresAt then
          match refreshTokenOp genv account with
          | .error e => .error e
          | .ok newTok => .ok (newTok, [.refreshCall])
        else .ok (tok0, [])
      match cred with
      | .error e =>
        ⟨failAll jobs ("failed to refresh token: " ++ e), [], [.refreshCall],
          .error ("failed to refresh token: " ++ e)⟩
      | .ok (accessToken, tr0) =>
        accountFetchPlan genv orenv now newIds accountId jobs accessToken tr0
    | _, _ =>
      ⟨failAll jobs "account missing tokens", [], [],
        .error "account missing tokens"⟩

/-- Apply a sequence of `UpdateStatus` calls to the llm_sync_job table. -/
def applyWrites (store : List LLMSyncJob) (ws : List StatusWrite) (now : Int) :
    List LLMSyncJob :=
  ws.foldl (fun s w => llmUpdateStatus s w.jobId w.status w.lastError now) store

/-- The state an extraction batch threads through: the llm_sync_job table,
the payment table, and the Gmail trace. -/
structure LLMProcState where
  llmStore : List LLMSyncJob
  payments : List Payment
  trace : List GEvent

/-- `processAccountJobs`: compute the plan and apply it to the state. -/
def processAccountJobs (genv : GmailEnv) (orenv : ORouterEnv) (now : Int)
    (newIds : Nat → String) (accountId : String) (jobs : List LLMSyncJob)
    (st : LLMProcState) : LLMProcState × Except String Unit :=
  let plan := accountJobsPlan genv orenv now newIds accountId jobs
  ({ llmStore := applyWrites st.llmStore plan.writes now,
     payments := st.payments ++ plan.newPayments,
     trace := st.trace ++ plan.trace }, plan.outcome)

/-- `ProcessLLMSyncJobs` groups the batch by account.  Go iterates a map in
unspecified order; the model fixes first-appearance order, and each group is
the sub-batch of that account's jobs in batch order. -/
def groupByAccount (jobs : List LLMSyncJob) : List (String × List LLMSyncJob) :=
  (jobs.map (·.accountId)).dedup.map fun aid =>
    (aid, jobs.filter (fun j => j.accountId = aid))

/-- `LLMProcessor.ProcessLLMSyncJobs`: per-account processing; an account's
error is logged and the loop continues with the other accounts. -/
def processLLMSyncJobs (genv : GmailEnv) (orenv : ORouterEnv) (now : Int)
    (newIds : String → Nat → String) (jobs : List LLMSyncJob) (st : LLMProcState) :
    LLMProcState :=
  if jobs.isEmpty then st
  else
    (groupByAccount jobs).foldl
      (fun s p => (processAccountJobs genv orenv now (newIds p.1) p.1 p.2 s).1) st

/-! ## C2: the validation gate

The client-side `isValidPayment` gate does turn invalid candidates into "no
payment, job completed".  But `isValidPayment` only checks that the `due`
string is nonempty — it does not parse it — and the processor's result loop
marks a job `failed` when both date layouts fail to parse, so "never
`failed`" is refuted. -/

/-- Extraction job used for the C2 counterexample. -/
def c2Job : LLMSyncJob :=
  { id := "j1", accountId := "acc1", messageId := "m1", status := .processing,
    lastSyncedAt := some 1, attempts := 1, lastError := none,
    createdAt := 0, updatedAt := 1, processedAt := none }

/-- A candidate that passes `isValidPayment` (merchant, positive amount,
currency, nonempty due, status) but whose due string parses under neither
accepted layout. -/
def c2BadDueCandidate : PaymentData :=
  { merchantName := "Netflix", description := "", amount := some (mkRat 1999 100),
    currency := "USD", due := "tomorrow", recurrence := none, status := "upcoming",
    category := "", externalReference := "", metadata := [] }

/-- C2 counterexample: the candidate survives the client validation gate,
produces no payment row, and its job is marked `failed` — the claim demands
`completed`, never `failed`, for every candidate failing a validation check
(an unparseable date included). -/
theorem C2_cex_unparseable_due_marks_failed :
    isValidPayment c2BadDueCandidate = true
      ∧ parseDue c2BadDueCandidate.due = none
      ∧ (processSlot 5 "acc1" "pay1" c2Job c2BadDueCandidate []).2 = none
      ∧ (processSlot 5 "acc1" "pay1" c2Job c2BadDueCandidate []).1
        = ⟨"j1", .failed, some "failed to parse due date"⟩
      ∧ LLMStatus.failed ≠ LLMStatus.completed := by
  refine ⟨by decide, by decide, by decide, by decide, by decide⟩

/-- C2 amended: a candidate produces a payment row only if merchant name,
amount, and a due date parseable under an accepted layout are all present
(and then the row carries the candidate's fields and the job completes); a
candidate with missing merchant or amount — which, through the client gate,
includes every candidate with a non-positive amount or missing
currency/due/status — produces zero rows with the job `completed`; but a
candidate passing those presence checks whose due string parses under
neither layout produces zero rows with the job marked `failed`, not
`completed`. -/
theorem C2_amended_validation_gate (now : Int) (accountId newId : String)
    (job : LLMSyncJob) (pd : PaymentData) (raw : JSONB) (env : ORouterEnv)
    (email : EmailData) :
    (∀ p, (processSlot now accountId newId job pd raw).2 = some p →
        pd.merchantName ≠ "" ∧ pd.amount = some p.amount
          ∧ parseDue pd.due = some p.date
          ∧ p.merchant = pd.merchantName ∧ p.currency = pd.currency
          ∧ p.status = pd.status
          ∧ (processSlot now accountId newId job pd raw).1 = ⟨job.id, .completed, none⟩)
      ∧ (pd.merchantName = "" ∨ pd.amount = none →
          processSlot now accountId newId job pd raw
            = (⟨job.id, .completed, none⟩, none))
      ∧ (pd.merchantName ≠ "" → pd.amount ≠ none → parseDue pd.due = none →
          processSlot now accountId newId job pd raw
            = (⟨job.id, .failed, some "failed to parse due date"⟩, none))
      ∧ (env.complete email = .ok (pd, raw) → isValidPayment pd = false →
          extractPayment env email = .ok (none, raw))
      ∧ processSlot now accountId newId job emptyPaymentData raw
        = (⟨job.id, .completed, none⟩, none) := by
  refine ⟨?_, ?_, ?_, ?_, ?_⟩
  · intro p hp
    unfold processSlot at hp ⊢
    by_cases hm : pd.merchantName = ""
    · simp [hm] at hp
    · rcases ha : pd.amount with _ | amt
      · simp [hm, ha] at hp
      · rcases hd : parseDue pd.due with _ | d
        · simp [hm, ha, hd] at hp
        · simp [hm, ha, hd] at hp ⊢
          subst hp
          simp [hm, ha, hd]
  · intro h
    unfold processSlot
    rcases h with h | h
    · simp [h]
    · by_cases hm : pd.merchantName = "" <;> simp [hm, h]
  · intro hm ha hd
    unfold processSlot
    rcases h : pd.amount with _ | amt
    · exact absurd h ha
    · simp [hm, h, hd]
  · intro hc hv
    unfold extractPayment
    rw [hc]
    simp [hv]
  · unfold processSlot emptyPaymentData
    simp

/-- Extraction job used for the C2 witness. -/
def c2WitnessJob : LLMSyncJob :=
  { id := "j2", accountId := "acc1", messageId := "m2", status := .processing,
    lastSyncedAt := some 1, attempts := 1, lastError := none,
    createdAt := 0, updatedAt := 1, processedAt := none }

/-- A candidate with merchant and amount present but an unparseable due. -/
def c2WitnessBadDue : PaymentData :=
  { merchantName := "Spotify", description := "", amount := some 99,
    currency := "EUR", due := "soon", recurrence := none, status := "upcoming",
    category := "", externalReference := "", metadata := [] }

/-- A candidate with a missing merchant name. -/
def c2WitnessNoMerchant : PaymentData :=
  { merchantName := "", description := "", amount := some 99, currency := "EUR",
    due := "2025-01-01T00:00:00", recurrence := none, status := "upcoming",
    category := "", externalReference := "", metadata := [] }

theorem C2_amended_validation_gate_witness :
    processSlot 5 "acc1" "pay2" c2WitnessJob c2WitnessNoMerchant []
        = (⟨"j2", .completed, none⟩, none)
      ∧ processSlot 5 "acc1" "pay2" c2WitnessJob c2WitnessBadDue []
        = (⟨"j2", .failed, some "failed to parse due date"⟩, none) := by
  constructor
  · have h := (C2_amended_validation_gate 5 "acc1" "pay2" c2WitnessJob
      c2WitnessNoMerchant [] ⟨fun _ => .ok (emptyPaymentData, [])⟩
      ⟨"", "", ""⟩).2.1 (Or.inl (by decide))
    exact h
  · have h := (C2_amended_validation_gate 5 "acc1" "pay2" c2WitnessJob
      c2WitnessBadDue [] ⟨fun _ => .ok (emptyPaymentData, [])⟩
      ⟨"", "", ""⟩).2.2.1 (by decide) (by decide) (by decide)
    exact h

/-! ## C8: discovery capacity bookkeeping -/

theorem fetchPhase_capacity (env : GmailEnv) (now : Int) (newIds : Nat → String)
    (job : EmailSyncJob) (es : List EmailSyncJob) (ls : List LLMSyncJob)
    (tok : String) (trace0 : List GEvent)
    (h0 : ∀ n, GEvent.fetchIdsCall n ∉ trace0)
    (hPage : ∀ tok q n pt r, 0 < n → env.fetchMessageIDs tok q n pt = .ok r →
        (r.messageIDs.length : Int) ≤ n)
    (hCap : job.emailsFetched ≤ MaxEmailsPerAccount) :
    job.emailsFetched
        ≤ (processEmailSyncJobFetch env now newIds job es ls tok trace0).job.emailsFetched
      ∧ (processEmailSyncJobFetch env now newIds job es ls tok trace0).job.emailsFetched
        ≤ MaxEmailsPerAccount
      ∧ (∀ n, GEvent.fetchIdsCall n
            ∈ (processEmailSyncJobFetch env now newIds job es ls tok trace0).trace →
          n = min EmailsPerPage (MaxEmailsPerAccount - job.emailsFetched))
      ∧ (MaxEmailsPerAccount - job.emailsFetched ≤ 0 →
          (processEmailSyncJobFetch env now newIds job es ls tok trace0).outcome = .ok ()
            ∧ (processEmailSyncJobFetch env now newIds job es ls tok trace0).job = job
            ∧ ∀ n, GEvent.fetchIdsCall n
                ∉ (processEmailSyncJobFetch env now newIds job es ls tok trace0).trace) := by
  simp only [processEmailSyncJobFetch]
  by_cases hrem : MaxEmailsPerAccount - job.emailsFetched ≤ 0
  · rw [if_pos hrem]
    exact ⟨le_refl _, hCap, fun n hn => absurd hn (h0 n), fun _ => ⟨rfl, rfl, h0⟩⟩
  · rw [if_neg hrem]
    have hbs : 0 < (if MaxEmailsPerAccount - job.emailsFetched < EmailsPerPage
        then MaxEmailsPerAccount - job.emailsFetched else EmailsPerPage) := by
      simp only [MaxEmailsPerAccount, EmailsPerPage] at hrem ⊢
      split <;> omega
    have hbsle : (if MaxEmailsPerAccount - job.emailsFetched < EmailsPerPage
        then MaxEmailsPerAccount - job.emailsFetched else EmailsPerPage)
        ≤ MaxEmailsPerAccount - job.emailsFetched := by
      simp only [MaxEmailsPerAccount, EmailsPerPage] at hrem ⊢
      split <;> omega
    have hbsmin : (if MaxEmailsPerAccount - job.emailsFetched < EmailsPerPage
        then MaxEmailsPerAccount - job.emailsFetched else EmailsPerPage)
        = min EmailsPerPage (MaxEmailsPerAccount - job.emailsFetched) := by
      rw [min_def]
      simp only [MaxEmailsPerAccount, EmailsPerPage] at hrem ⊢
      split <;> split <;> omega
    rcases hfetch : env.fetchMessageIDs tok (buildGmailQuery job)
        (if MaxEmailsPerAccount - job.emailsFetched < EmailsPerPage
          then MaxEmailsPerAccount - job.emailsFetched else EmailsPerPage)
        (job.pageToken.getD "") with e | result
    · dsimp only
      refine ⟨le_refl _, hCap, ?_, fun h => absurd h hrem⟩
      intro n hn
      rcases List.mem_append.mp hn with h | h
      · exact absurd h (h0 n)
      · simp only [List.mem_singleton, GEvent.fetchIdsCall.injEq] at h
        rw [h, hbsmin]
    · dsimp only
      have hlen : ((result.messageIDs.length : Int))
          ≤ (if MaxEmailsPerAccount - job.emailsFetched < EmailsPerPage
            then MaxEmailsPerAccount - job.emailsFetched else EmailsPerPage) :=
        hPage _ _ _ _ _ hbs hfetch
      refine ⟨?_, ?_, ?_, fun h => absurd h hrem⟩
      · have hnn : (0 : Int) ≤ (result.messageIDs.length : Int) := Int.natCast_nonneg _
        omega
      · omega
      · intro n hn
        rcases List.mem_append.mp hn with h | h
        · exact absurd h (h0 n)
        · simp only [List.mem_singleton, GEvent.fetchIdsCall.injEq] at h
          rw [h, hbsmin]

/-- C8: for a successful discovery invocation against a provider that honours
the requested page size, the items-fetched counter is monotone and stays
within the 10000-per-account cap, every page request asks for
`min(pageSize, cap − fetched)` identifiers, and at zero remaining capacity
the processor succeeds without contacting the provider. -/
theorem C8_discovery_capacity (env : GmailEnv) (now : Int) (newIds : Nat → String)
    (job : EmailSyncJob) (es : List EmailSyncJob) (ls : List LLMSyncJob)
    (hPage : ∀ tok q n pt r, 0 < n → env.fetchMessageIDs tok q n pt = .ok r →
        (r.messageIDs.length : Int) ≤ n)
    (hCap : job.emailsFetched ≤ MaxEmailsPerAccount)
    (hOk : (processEmailSyncJob env now newIds job es ls).outcome = .ok ()) :
    job.emailsFetched ≤ (processEmailSyncJob env now newIds job es ls).job.emailsFetched
      ∧ (processEmailSyncJob env now newIds job es ls).job.emailsFetched
        ≤ MaxEmailsPerAccount
      ∧ (∀ n, GEvent.fetchIdsCall n ∈ (processEmailSyncJob env now newIds job es ls).trace →
          n = min EmailsPerPage (MaxEmailsPerAccount - job.emailsFetched))
      ∧ (MaxEmailsPerAccount - job.emailsFetched ≤ 0 →
          (processEmailSyncJob env now newIds job es ls).job = job
            ∧ ∀ n, GEvent.fetchIdsCall n
                ∉ (processEmailSyncJob env now newIds job es ls).trace) := by
  unfold processEmailSyncJob at hOk ⊢
  rcases hacct : env.getAccount job.accountId with e | account
  · rw [hacct] at hOk
    dsimp only at hOk
    cases hOk
  · rw [hacct] at hOk
    dsimp only at hOk ⊢
    rcases htok : account.accessToken with _ | tok0
    · rw [htok] at hOk
      dsimp only at hOk
      cases hOk
    · rcases hrt : account.refreshToken with _ | rt
      · rw [htok, hrt] at hOk
        dsimp only at hOk
        cases hOk
      · rw [htok, hrt] at hOk
        dsimp only at hOk ⊢
        by_cases hexp : isTokenExpired now account.accessTokenExpiresAt = true
        · rw [if_pos hexp] at hOk ⊢
          rcases hrf : refreshTokenOp env account with e | newTok
          · rw [hrf] at hOk
            dsimp only at hOk
            cases hOk
          · rw [hrf] at hOk
            dsimp only at hOk ⊢
            have h := fetchPhase_capacity env now newIds job es ls newTok
              [.refreshCall] (by intro n hn; simp at hn) hPage hCap
            exact ⟨h.1, h.2.1, h.2.2.1, fun hr => ⟨(h.2.2.2 hr).2.1, (h.2.2.2 hr).2.2⟩⟩
        · rw [if_neg hexp] at hOk ⊢
          have h := fetchPhase_capacity env now newIds job es ls tok0 []
            (by intro n hn; simp at hn) hPage hCap
          exact ⟨h.1, h.2.1, h.2.2.1, fun hr => ⟨(h.2.2.2 hr).2.1, (h.2.2.2 hr).2.2⟩⟩

/-- Account used by the C8 witness: valid tokens, not near expiry. -/
def w8Account : Account :=
  { id := "acc1", accessToken := some "tok", refreshToken := some "rtok",
    accessTokenExpiresAt := some 1000000 }

/-- Gmail environment used by the C8 witness: honours any positive requested
page size by returning a single identifier. -/
def w8Env : GmailEnv :=
  { getAccount := fun _ => .ok w8Account
    fetchMessageIDs := fun _ _ n _ => .ok ⟨if 1 ≤ n then ["m1"] else [], ""⟩
    fetchEmailByID := fun _ _ => .error "unused"
    refreshAccessToken := fun _ => .ok ⟨"tok2", 2000000, "rtok2"⟩
    updateTokens := fun _ _ _ _ => .ok () }

/-- Discovery job one identifier short of the cap. -/
def w8Job : EmailSyncJob :=
  { id := "e1", accountId := "acc1", status := .processing, syncType := .initial,
    emailsFetched := 9999, pageToken := none, lastSyncedAt := some 1, attempts := 1,
    lastError := none, createdAt := 0, updatedAt := 1, processedAt := none }

theorem C8_discovery_capacity_witness :
    9999 ≤ (processEmailSyncJob w8Env 0 (fun _ => "p") w8Job [] []).job.emailsFetched
      ∧ (processEmailSyncJob w8Env 0 (fun _ => "p") w8Job [] []).job.emailsFetched
        ≤ MaxEmailsPerAccount := by
  have hPage : ∀ tok q n pt r, 0 < n → w8Env.fetchMessageIDs tok q n pt = .ok r →
      (r.messageIDs.length : Int) ≤ n := by
    intro tok q n pt r hn h
    simp only [w8Env] at h
    cases h
    split <;> simp <;> omega
  have h := C8_discovery_capacity w8Env 0 (fun _ => "p") w8Job [] [] hPage
    (by decide) rfl
  exact ⟨h.1, h.2.1⟩

/-! ## C10: nil token expiry means expired, refresh precedes provider calls -/

theorem refreshBeforeProvider_nil : refreshBeforeProvider [] := by
  intro e he
  cases he

theorem refreshBeforeProvider_cons (tr : List GEvent) :
    refreshBeforeProvider (GEvent.refreshCall :: tr) := by
  intro e he
  simp [List.takeWhile] at he

theorem fetchPhase_trace_append (env : GmailEnv) (now : Int) (newIds : Nat → String)
    (job : EmailSyncJob) (es : List EmailSyncJob) (ls : List LLMSyncJob)
    (tok : String) (trace0 : List GEvent) :
    ∃ t, (processEmailSyncJobFetch env now newIds job es ls tok trace0).trace
      = trace0 ++ t := by
  simp only [processEmailSyncJobFetch]
  by_cases hrem : MaxEmailsPerAccount - job.emailsFetched ≤ 0
  · rw [if_pos hrem]
    exact ⟨[], by simp⟩
  · rw [if_neg hrem]
    rcases hfetch : env.fetchMessageIDs tok (buildGmailQuery job)
        (if MaxEmailsPerAccount - job.emailsFetched < EmailsPerPage
          then MaxEmailsPerAccount - job.emailsFetched else EmailsPerPage)
        (job.pageToken.getD "") with e | result
    · exact ⟨_, rfl⟩
    · exact ⟨_, rfl⟩

theorem accountFetchPlan_trace (genv : GmailEnv) (orenv : ORouterEnv) (now : Int)
    (newIds : Nat → String) (accountId : String) (jobs : List LLMSyncJob)
    (accessToken : String) (tr0 : List GEvent) :
    (accountFetchPlan genv orenv now newIds accountId jobs accessToken tr0).trace
      = tr0 ++ (fetchStage genv accessToken jobs).2.2 := by
  unfold accountFetchPlan
  rcases hfs : fetchStage genv accessToken jobs with ⟨fw, pairs, ftrace⟩
  dsimp only
  by_cases hpe : pairs.isEmpty = true
  · rw [if_pos hpe]
  · rw [if_neg hpe]
    rcases hbe : batchExtractPayments orenv (pairs.map (·.1)) with e | pr
    · rw [hbe]
    · rcases pr with ⟨payments, raws⟩
      rw [hbe]

/-- C10: `isTokenExpired` is true exactly when the stored expiry is nil or
lies within the five-minute safety window after the current time; and for an
account with a nil expiry, both the discovery processor and the extraction
processor attempt the credential refresh before any provider call. -/
theorem C10_nil_expiry_refresh_first (now : Int) (x : Option Int) (env : GmailEnv)
    (newIds newIds2 : Nat → String) (job : EmailSyncJob) (es : List EmailSyncJob)
    (ls : List LLMSyncJob) (acct acct2 : Account) (orenv : ORouterEnv)
    (accountId : String) (jobs : List LLMSyncJob)
    (hacct : env.getAccount job.accountId = .ok acct)
    (hexp : acct.accessTokenExpiresAt = none)
    (hacct2 : env.getAccount accountId = .ok acct2)
    (hexp2 : acct2.accessTokenExpiresAt = none) :
    (isTokenExpired now x = true
        ↔ x = none ∨ ∃ e, x = some e ∧ e < now + fiveMinutes)
      ∧ refreshBeforeProvider (processEmailSyncJob env now newIds job es ls).trace
      ∧ refreshBeforeProvider (accountJobsPlan env orenv now newIds2 accountId jobs).trace := by
  refine ⟨?_, ?_, ?_⟩
  · rcases x with _ | e
    · simp [isTokenExpired]
    · simp only [isTokenExpired, decide_eq_true_eq]
      constructor
      · intro h
        exact Or.inr ⟨e, rfl, by omega⟩
      · rintro (h | ⟨e', he', hlt⟩)
        · cases h
        · simp only [Option.some.injEq] at he'
          omega
  · unfold processEmailSyncJob
    rw [hacct]
    dsimp only
    rcases htok : acct.accessToken with _ | tok0
    · exact refreshBeforeProvider_nil
    · rcases hrt : acct.refreshToken with _ | rt
      · exact refreshBeforeProvider_nil
      · have hexpired : isTokenExpired now acct.accessTokenExpiresAt = true := by
          rw [hexp]
          rfl
        dsimp only
        rw [if_pos hexpired]
        rcases hrf : refreshTokenOp env acct with e | newTok
        · exact refreshBeforeProvider_cons []
        · obtain ⟨t, ht⟩ := fetchPhase_trace_append env now newIds job es ls newTok
            [.refreshCall]
          dsimp only
          rw [ht]
          exact refreshBeforeProvider_cons t
  · unfold accountJobsPlan
    rw [hacct2]
    dsimp only
    rcases htok : acct2.accessToken with _ | tok0
    · exact refreshBeforeProvider_nil
    · rcases hrt : acct2.refreshToken with _ | rt
      · exact refreshBeforeProvider_nil
      · have hexpired : isTokenExpired now acct2.accessTokenExpiresAt = true := by
          rw [hexp2]
          rfl
        dsimp only
        rw [if_pos hexpired]
        rcases hrf : refreshTokenOp env acct2 with e | newTok
        · exact refreshBeforeProvider_cons []
        · dsimp only
          rw [accountFetchPlan_trace]
          exact refreshBeforeProvider_cons _

/-- Account with a nil token expiry, for the C10 witness. -/
def w10Account : Account :=
  { id := "acc1", accessToken := some "tok", refreshToken := some "rtok",
    accessTokenExpiresAt := none }

/-- Environment for the C10 witness. -/
def w10Env : GmailEnv :=
  { getAccount := fun _ => .ok w10Account
    fetchMessageIDs := fun _ _ _ _ => .ok ⟨["m1"], ""⟩
    fetchEmailByID := fun _ _ =>
      .ok { fromAddr := "a@b", subject := "s", bodyText := "t", bodyHTML := "h" }
    refreshAccessToken := fun _ => .ok ⟨"tok2", 2000000, "rtok2"⟩
    updateTokens := fun _ _ _ _ => .ok () }

/-- Extraction job for the C10 witness. -/
def w10LLMJob : LLMSyncJob :=
  { id := "j1", accountId := "acc1", messageId := "m1", status := .processing,
    lastSyncedAt := some 1, attempts := 1, lastError := none, createdAt := 0,
    updatedAt := 1, processedAt := none }

theorem C10_nil_expiry_refresh_first_witness :
    (isTokenExpired 0 none = true)
      ∧ refreshBeforeProvider (processEmailSyncJob w10Env 0 (fun _ => "p") w8Job [] []).trace
      ∧ refreshBeforeProvider
          (accountJobsPlan w10Env ⟨fun _ => .ok (emptyPaymentData, [])⟩ 0
            (fun _ => "p") "acc1" [w10LLMJob]).trace := by
  have h := C10_nil_expiry_refresh_first 0 none w10Env (fun _ => "p") (fun _ => "p")
    w8Job [] [] w10Account w10Account ⟨fun _ => .ok (emptyPaymentData, [])⟩ "acc1"
    [w10LLMJob] rfl rfl rfl rfl
  exact ⟨h.1.mpr (Or.inl rfl), h.2.1, h.2.2⟩

/-! ## C7: failure isolation in extraction batches -/

theorem applyWrites_append (s : List LLMSyncJob) (a b : List StatusWrite) (now : Int) :
    applyWrites s (a ++ b) now = applyWrites (applyWrites s a now) b now := by
  unfold applyWrites
  rw [List.foldl_append]

/-- The row a lookup sees after a write sequence is the original row passed
through exactly the writes addressed to it, in order. -/
theorem findLLMJob_applyWrites (s : List LLMSyncJob) (ws : List StatusWrite)
    (now : Int) (id : String) :
    findLLMJob (applyWrites s ws now) id =
      (findLLMJob s id).map (fun r =>
        (ws.filter (fun w => w.jobId = id)).foldl
          (fun r w =>
            { r with status := w.status, lastError := w.lastError,
                     updatedAt := now, lastSyncedAt := some now }) r) := by
  induction ws generalizing s with
  | nil =>
    rcases h : findLLMJob s id with _ | r <;> simp [applyWrites, h]
  | cons w t ih =>
    have h1 : applyWrites s (w :: t) now
        = applyWrites (llmUpdateStatus s w.jobId w.status w.lastError now) t now := rfl
    rw [h1, ih, findLLMJob_update, Option.map_map]
    by_cases hw : w.jobId = id
    · rw [List.filter_cons_of_pos (by simp [hw])]
      rcases hfind : findLLMJob s id with _ | r
      · rfl
      · have hr : r.id = id := by simpa using List.find?_some hfind
        have hcond : r.id = w.jobId := hr.trans hw.symm
        simp [Function.comp, hcond]
    · rw [List.filter_cons_of_neg (by simp [hw])]
      rcases hfind : findLLMJob s id with _ | r
      · rfl
      · have hr : r.id = id := by simpa using List.find?_some hfind
        have hne : ¬(r.id = w.jobId) := by
          rw [hr]
          exact fun h => hw h.symm
        simp [Function.comp, hne]

theorem failAll_filter_at (jobs : List LLMSyncJob) (msg : String) (id : String) :
    (failAll jobs msg).filter (fun w => w.jobId = id)
      = (jobs.filter (fun b => b.id = id)).map
          (fun j => (⟨j.id, .failed, some msg⟩ : StatusWrite)) := by
  unfold failAll
  rw [List.filter_map]
  rfl

/-- Under unique row ids, the rows of `batch` with a member's id are exactly
that member. -/
theorem filter_id_singleton {batch : List LLMSyncJob}
    (hN : (batch.map (·.id)).Nodup) {j : LLMSyncJob} (hj : j ∈ batch) :
    batch.filter (fun b => b.id = j.id) = [j] := by
  induction batch with
  | nil => cases hj
  | cons a t ih =>
    have hmap : (a.id :: t.map (fun x => x.id)).Nodup := by
      rw [← List.map_cons]
      exact hN
    have hcons := List.nodup_cons.mp hmap
    rcases List.mem_cons.mp hj with rfl | hj'
    · rw [List.filter_cons_of_pos (by simp)]
      have : t.filter (fun b => b.id = j.id) = [] := by
        rw [List.filter_eq_nil_iff]
        intro x hx
        simp only [decide_eq_true_eq]
        intro hEq
        exact hcons.1 (hEq ▸ List.mem_map_of_mem _ hx)
      rw [this]
    · have hne : ¬(a.id = j.id) := by
        intro hEq
        exact hcons.1 (hEq ▸ List.mem_map_of_mem _ hj')
      rw [List.filter_cons_of_neg (by simpa using hne)]
      exact ih hcons.2 hj'

/-! ### Write targets of an account plan -/

theorem failAll_ids (jobs : List LLMSyncJob) (msg : String) :
    ∀ w ∈ failAll jobs msg, w.jobId ∈ jobs.map (·.id) := by
  intro w hw
  rcases List.mem_map.mp hw with ⟨j, hj, rfl⟩
  exact List.mem_map_of_mem _ hj

theorem fetchStage_shape (env : GmailEnv) (tok : String) (jobs : List LLMSyncJob) :
    (∀ w ∈ (fetchStage env tok jobs).1, w.jobId ∈ jobs.map (·.id))
      ∧ (∀ p ∈ (fetchStage env tok jobs).2.1, p.2 ∈ jobs) := by
  induction jobs with
  | nil => exact ⟨fun w hw => absurd hw (List.not_mem_nil w), fun p hp => absurd hp (List.not_mem_nil p)⟩
  | cons j rest ih =>
    rcases hf : env.fetchEmailByID tok j.messageId with e | msg
    · constructor
      · intro w hw
        simp only [fetchStage, hf, List.map_cons, List.mem_cons] at hw ⊢
        rcases hw with rfl | hw
        · exact Or.inl rfl
        · exact Or.inr (ih.1 w hw)
      · intro p hp
        simp only [fetchStage, hf] at hp
        exact List.mem_cons_of_mem _ (ih.2 p hp)
    · constructor
      · intro w hw
        simp only [fetchStage, hf] at hw
        simp only [List.map_cons, List.mem_cons]
        exact Or.inr (ih.1 w hw)
      · intro p hp
        simp only [fetchStage, hf, List.mem_cons] at hp
        simp only [List.mem_cons]
        rcases hp with rfl | hp
        · exact Or.inl rfl
        · exact Or.inr (ih.2 p hp)

theorem processSlots_ids (now : Int) (accountId : String) (newIds : Nat → String) :
    ∀ k slots, ∀ w ∈ (processSlots now accountId newIds k slots).1,
      ∃ s ∈ slots, w.jobId = s.1.id := by
  intro k slots
  induction slots generalizing k with
  | nil => intro w hw; cases hw
  | cons s rest ih =>
    intro w hw
    unfold processSlots at hw
    rcases s with ⟨job, pd, raw⟩
    simp only [List.mem_cons] at hw
    rcases hw with rfl | hw
    · refine ⟨(job, pd, raw), List.mem_cons_self _ _, ?_⟩
      unfold processSlot
      split
      · rfl
      · rcases pd.amount with _ | amt
        · rfl
        · rcases parseDue pd.due with _ | d
          · rfl
          · rfl
    · obtain ⟨s', hs', hid⟩ := ih (k + 1) w hw
      exact ⟨s', List.mem_cons_of_mem _ hs', hid⟩

theorem accountFetchPlan_writes_ids (genv : GmailEnv) (orenv : ORouterEnv) (now : Int)
    (newIds : Nat → String) (accountId : String) (jobs : List LLMSyncJob)
    (tok : String) (tr0 : List GEvent) :
    ∀ w ∈ (accountFetchPlan genv orenv now newIds accountId jobs tok tr0).writes,
      w.jobId ∈ jobs.map (·.id) := by
  intro w hw
  have hsh := fetchStage_shape genv tok jobs
  unfold accountFetchPlan at hw
  rcases hfs : fetchStage genv tok jobs with ⟨fw, pairs, ftrace⟩
  rw [hfs] at hw hsh
  dsimp only at hw hsh
  by_cases hpe : pairs.isEmpty = true
  · rw [if_pos hpe] at hw
    exact hsh.1 w hw
  · rw [if_neg hpe] at hw
    rcases hbe : batchExtractPayments orenv (pairs.map (·.1)) with e | pr
    · rw [hbe] at hw
      dsimp only at hw
      rcases List.mem_append.mp hw with h | h
      · exact hsh.1 w h
      · exact failAll_ids jobs _ w h
    · rcases pr with ⟨payments, raws⟩
      rw [hbe] at hw
      dsimp only at hw
      rcases List.mem_append.mp hw with h | h
      · exact hsh.1 w h
      · obtain ⟨s, hs, hid⟩ := processSlots_ids now accountId newIds 0 _ w h
        rcases List.mem_map.mp hs with ⟨p, hp, rfl⟩
        have hp1 : p.1 ∈ pairs.map (·.2) := (List.of_mem_zip hp).1
        rcases List.mem_map.mp hp1 with ⟨q, hq, hq1⟩
        have hqj : q.2 ∈ jobs := hsh.2 q hq
        rw [hid, ← hq1]
        exact List.mem_map_of_mem _ hqj

theorem accountJobsPlan_writes_ids (genv : GmailEnv) (orenv : ORouterEnv) (now : Int)
    (newIds : Nat → String) (accountId : String) (jobs : List LLMSyncJob) :
    ∀ w ∈ (accountJobsPlan genv orenv now newIds accountId jobs).writes,
      w.jobId ∈ jobs.map (·.id) := by
  intro w hw
  unfold accountJobsPlan at hw
  rcases hacct : genv.getAccount accountId with e | account
  · rw [hacct] at hw
    exact failAll_ids jobs _ w hw
  · rw [hacct] at hw
    dsimp only at hw
    rcases htok : account.accessToken with _ | tok0
    · rw [htok] at hw
      exact failAll_ids jobs _ w hw
    · rcases hrt : account.refreshToken with _ | rt
      · rw [htok, hrt] at hw
        exact failAll_ids jobs _ w hw
      · rw [htok, hrt] at hw
        dsimp only at hw
        by_cases hexp : isTokenExpired now account.accessTokenExpiresAt = true
        · rw [if_pos hexp] at hw
          rcases hrf : refreshTokenOp genv account with e | newTok
          · rw [hrf] at hw
            exact failAll_ids jobs _ w hw
          · rw [hrf] at hw
            dsimp only at hw
            exact accountFetchPlan_writes_ids genv orenv now newIds accountId jobs
              newTok [.refreshCall] w hw
        · rw [if_neg hexp] at hw
          dsimp only at hw
          exact accountFetchPlan_writes_ids genv orenv now newIds accountId jobs
            tok0 [] w hw

/-! ### Grouping and batch decomposition -/

theorem groupByAccount_mem {jobs : List LLMSyncJob} {p : String × List LLMSyncJob}
    (hp : p ∈ groupByAccount jobs) :
    p.2 = jobs.filter (fun j => j.accountId = p.1) := by
  unfold groupByAccount at hp
  rcases List.mem_map.mp hp with ⟨aid, _, rfl⟩
  rfl

theorem groupByAccount_keys_mem {jobs : List LLMSyncJob} {j : LLMSyncJob}
    (hj : j ∈ jobs) :
    (j.accountId, jobs.filter (fun x => x.accountId = j.accountId))
      ∈ groupByAccount jobs := by
  unfold groupByAccount
  exact List.mem_map.mpr
    ⟨j.accountId, List.mem_dedup.mpr (List.mem_map_of_mem _ hj), rfl⟩

theorem groupByAccount_keys_nodup (jobs : List LLMSyncJob) :
    ((groupByAccount jobs).map (·.1)).Nodup := by
  unfold groupByAccount
  rw [List.map_map]
  have h1 : ((fun x : String × List LLMSyncJob => x.1) ∘ fun aid =>
      (aid, jobs.filter (fun j => j.accountId = aid))) = fun aid => aid := rfl
  rw [h1, List.map_id']
  exact List.nodup_dedup _

theorem flatMap_eq_single {β : Type} (keys : List String) (f : String → List β)
    (Y : String) (hN : keys.Nodup) (hY : Y ∈ keys)
    (hother : ∀ z ∈ keys, z ≠ Y → f z = []) :
    keys.flatMap f = f Y := by
  induction keys with
  | nil => cases hY
  | cons a t ih =>
    have hcons := List.nodup_cons.mp hN
    rw [List.flatMap_cons]
    rcases List.mem_cons.mp hY with rfl | hY'
    · have ht : t.flatMap f = [] := by
        rw [List.flatMap_eq_nil_iff]
        intro z hz
        exact hother z (List.mem_cons_of_mem _ hz)
          (fun hEq => hcons.1 (hEq ▸ hz))
      rw [ht, List.append_nil]
    · have ha : f a = [] :=
        hother a (List.mem_cons_self a t) (fun hEq => hcons.1 (hEq ▸ hY'))
      rw [ha, List.nil_append]
      exact ih hcons.2 hY' (fun z hz => hother z (List.mem_cons_of_mem _ hz))

/-- The writes the whole batch run issues, per group in order. -/
def allGroupWrites (genv : GmailEnv) (orenv : ORouterEnv) (now : Int)
    (newIds : String → Nat → String) (batch : List LLMSyncJob) : List StatusWrite :=
  (groupByAccount batch).flatMap fun p =>
    (accountJobsPlan genv orenv now (newIds p.1) p.1 p.2).writes

theorem processLLMSyncJobs_llmStore (genv : GmailEnv) (orenv : ORouterEnv)
    (now : Int) (newIds : String → Nat → String) (batch : List LLMSyncJob)
    (st : LLMProcState) :
    (processLLMSyncJobs genv orenv now newIds batch st).llmStore
      = applyWrites st.llmStore (allGroupWrites genv orenv now newIds batch) now := by
  unfold processLLMSyncJobs
  by_cases hb : batch.isEmpty = true
  · rw [if_pos hb]
    have hBatch : batch = [] := List.isEmpty_iff.mp hb
    subst hBatch
    rfl
  · rw [if_neg hb]
    unfold allGroupWrites
    generalize groupByAccount batch = gs
    induction gs generalizing st with
    | nil => rfl
    | cons g t ih =>
      rw [List.foldl_cons, List.flatMap_cons, applyWrites_append]
      have hstep :
          ((processAccountJobs genv orenv now (newIds g.1) g.1 g.2 st).1).llmStore
            = applyWrites st.llmStore
                (accountJobsPlan genv orenv now (newIds g.1) g.1 g.2).writes now := rfl
      rw [← hstep]
      exact ih _

/-- The double-wrapped refresh failure message of `processAccountJobs`. -/
def refreshDoubleMsg (e : String) : String :=
  "failed to refresh token: " ++ ("failed to refresh token: " ++ e)

theorem accountJobsPlan_refresh_fail (genv : GmailEnv) (orenv : ORouterEnv)
    (now : Int) (newIds : Nat → String) (accountId : String)
    (jobs : List LLMSyncJob) (acct : Account) (tok0 rt e : String)
    (hacct : genv.getAccount accountId = .ok acct)
    (htok : acct.accessToken = some tok0) (hrt : acct.refreshToken = some rt)
    (hexp : isTokenExpired now acct.accessTokenExpiresAt = true)
    (href : genv.refreshAccessToken rt = .error e) :
    accountJobsPlan genv orenv now newIds accountId jobs
      = ⟨failAll jobs (refreshDoubleMsg e), [], [.refreshCall],
          .error (refreshDoubleMsg e)⟩ := by
  have hop : refreshTokenOp genv acct = .error ("failed to refresh token: " ++ e) := by
    unfold refreshTokenOp
    rw [hrt]
    dsimp only
    rw [href]
  unfold accountJobsPlan
  rw [hacct]
  dsimp only
  rw [htok, hrt]
  dsimp only
  rw [if_pos hexp, hop]
  rfl

/-- A row of an account other than `X` is processed exactly as its own
account's sub-batch dictates: the final row equals the one produced by that
sub-batch's plan alone. -/
theorem llm_batch_lookup_local (genv : GmailEnv) (orenv : ORouterEnv) (now : Int)
    (newIds : String → Nat → String) (batch : List LLMSyncJob) (st : LLMProcState)
    (j : LLMSyncJob) (hNodup : (batch.map (·.id)).Nodup) (hj : j ∈ batch) :
    findLLMJob (processLLMSyncJobs genv orenv now newIds batch st).llmStore j.id
      = findLLMJob (applyWrites st.llmStore
          (accountJobsPlan genv orenv now (newIds j.accountId) j.accountId
            (batch.filter (fun b => b.accountId = j.accountId))).writes now) j.id := by
  rw [processLLMSyncJobs_llmStore, findLLMJob_applyWrites, findLLMJob_applyWrites]
  have hfilter : (allGroupWrites genv orenv now newIds batch).filter
        (fun w => w.jobId = j.id)
      = ((accountJobsPlan genv orenv now (newIds j.accountId) j.accountId
          (batch.filter (fun b => b.accountId = j.accountId))).writes).filter
          (fun w => w.jobId = j.id) := by
    unfold allGroupWrites groupByAccount
    rw [List.flatMap_map, List.filter_flatMap]
    exact flatMap_eq_single _ _ j.accountId
      (by simpa [Function.comp] using (batch.map (·.accountId)).nodup_dedup)
      (List.mem_dedup.mpr (List.mem_map_of_mem _ hj))
      (by
        intro z hz hne
        rw [List.filter_eq_nil_iff]
        intro w hw
        have hwid := accountJobsPlan_writes_ids genv orenv now (newIds z) z
          (batch.filter (fun b => b.accountId = z)) w hw
        rcases List.mem_map.mp hwid with ⟨j', hj', hid⟩
        have hj'batch : j' ∈ batch := (List.mem_filter.mp hj').1
        have hj'acc : j'.accountId = z := by
          simpa using (List.mem_filter.mp hj').2
        simp only [decide_eq_true_eq]
        intro hEq
        have : j' = j := id_inj_of_nodup (fun x => x.id) hNodup hj'batch hj
          (hid.trans hEq)
        subst this
        exact hne hj'acc.symm)
  rw [hfilter]

/-! ### Fetch-failure isolation within one account sub-batch -/

theorem fetchStage_append (env : GmailEnv) (tok : String) (l1 l2 : List LLMSyncJob) :
    fetchStage env tok (l1 ++ l2)
      = ((fetchStage env tok l1).1 ++ (fetchStage env tok l2).1,
         (fetchStage env tok l1).2.1 ++ (fetchStage env tok l2).2.1,
         (fetchStage env tok l1).2.2 ++ (fetchStage env tok l2).2.2) := by
  induction l1 with
  | nil => simp [fetchStage]
  | cons j t ih =>
    rw [List.cons_append]
    rcases hf : env.fetchEmailByID tok j.messageId with e | msg <;>
      simp [fetchStage, hf, ih]

theorem fetchStage_cons_fail (env : GmailEnv) (tok : String) (j0 : LLMSyncJob)
    (l2 : List LLMSyncJob) (e0 : String)
    (hfail : env.fetchEmailByID tok j0.messageId = .error e0) :
    fetchStage env tok (j0 :: l2)
      = ((⟨j0.id, .failed, some ("failed to fetch email: " ++ e0)⟩ : StatusWrite)
            :: (fetchStage env tok l2).1,
         (fetchStage env tok l2).2.1,
         .fetchEmailCall j0.messageId :: (fetchStage env tok l2).2.2) := by
  simp [fetchStage, hfail]

theorem batchExtractPayments_total (orenv : ORouterEnv)
    (hor : ∀ em, ∃ pd raw, orenv.complete em = .ok (pd, raw)) :
    ∀ emails, ∃ out, batchExtractPayments orenv emails = .ok out := by
  intro emails
  induction emails with
  | nil => exact ⟨([], []), rfl⟩
  | cons em rest ih =>
    obtain ⟨pd, raw, hc⟩ := hor em
    obtain ⟨out, hout⟩ := ih
    unfold batchExtractPayments extractPayment
    rw [hc]
    dsimp only
    by_cases hv : isValidPayment pd = true
    · rw [if_pos hv]
      dsimp only
      rw [hout]
      exact ⟨_, rfl⟩
    · rw [if_neg hv]
      dsimp only
      rw [hout]
      exact ⟨_, rfl⟩

theorem accountJobsPlan_no_refresh (genv : GmailEnv) (orenv : ORouterEnv)
    (now : Int) (newIds : Nat → String) (accountId : String)
    (jobs : List LLMSyncJob) (acct : Account) (tok0 rt : String)
    (hacct : genv.getAccount accountId = .ok acct)
    (htok : acct.accessToken = some tok0) (hrt : acct.refreshToken = some rt)
    (hexp : isTokenExpired now acct.accessTokenExpiresAt = false) :
    accountJobsPlan genv orenv now newIds accountId jobs
      = accountFetchPlan genv orenv now newIds accountId jobs tok0 [] := by
  unfold accountJobsPlan
  rw [hacct]
  dsimp only
  rw [htok, hrt]
  dsimp only
  rw [if_neg (by simp [hexp])]

/-- The writes of the post-credential phase, decomposed around one job whose
fetch fails: the other jobs' writes are the same with or without the failing
job, and the slot writes target only fetched jobs. -/
theorem accountFetchPlan_fail_decomp (genv : GmailEnv) (orenv : ORouterEnv)
    (now : Int) (newIds : Nat → String) (accY : String)
    (l1 l2 : List LLMSyncJob) (j0 : LLMSyncJob) (tokY e0 : String)
    (hfail : genv.fetchEmailByID tokY j0.messageId = .error e0)
    (hor : ∀ em, ∃ pd raw, orenv.complete em = .ok (pd, raw)) :
    ∃ S : List StatusWrite,
      (accountFetchPlan genv orenv now newIds accY (l1 ++ j0 :: l2) tokY []).writes
        = (fetchStage genv tokY l1).1
            ++ (⟨j0.id, .failed, some ("failed to fetch email: " ++ e0)⟩ : StatusWrite)
            :: ((fetchStage genv tokY l2).1 ++ S)
      ∧ (accountFetchPlan genv orenv now newIds accY (l1 ++ l2) tokY []).writes
        = (fetchStage genv tokY l1).1 ++ ((fetchStage genv tokY l2).1 ++ S)
      ∧ (∀ w ∈ S, ∃ p ∈ (fetchStage genv tokY l1).2.1 ++ (fetchStage genv tokY l2).2.1,
          w.jobId = p.2.id) := by
  have hd1 : fetchStage genv tokY (l1 ++ j0 :: l2)
      = ((fetchStage genv tokY l1).1
            ++ (⟨j0.id, .failed, some ("failed to fetch email: " ++ e0)⟩ : StatusWrite)
            :: (fetchStage genv tokY l2).1,
         (fetchStage genv tokY l1).2.1 ++ (fetchStage genv tokY l2).2.1,
         (fetchStage genv tokY l1).2.2
            ++ .fetchEmailCall j0.messageId :: (fetchStage genv tokY l2).2.2) := by
    rw [fetchStage_append, fetchStage_cons_fail genv tokY j0 l2 e0 hfail]
  have hd2 : fetchStage genv tokY (l1 ++ l2)
      = ((fetchStage genv tokY l1).1 ++ (fetchStage genv tokY l2).1,
         (fetchStage genv tokY l1).2.1 ++ (fetchStage genv tokY l2).2.1,
         (fetchStage genv tokY l1).2.2 ++ (fetchStage genv tokY l2).2.2) :=
    fetchStage_append genv tokY l1 l2
  set pairs := (fetchStage genv tokY l1).2.1 ++ (fetchStage genv tokY l2).2.1 with hpairs
  by_cases hpe : pairs.isEmpty = true
  · refine ⟨[], ?_, ?_, by intro w hw; cases hw⟩
    · unfold accountFetchPlan
      rw [hd1]
      dsimp only
      rw [if_pos hpe]
      simp
    · unfold accountFetchPlan
      rw [hd2]
      dsimp only
      rw [if_pos hpe]
      simp
  · obtain ⟨out, hout⟩ := batchExtractPayments_total orenv hor (pairs.map (·.1))
    rcases out with ⟨payments, raws⟩
    refine ⟨(processSlots now accY newIds 0
      (((pairs.map (·.2)).zip (payments.zip raws)).map fun p => (p.1, p.2.1, p.2.2))).1,
      ?_, ?_, ?_⟩
    · unfold accountFetchPlan
      rw [hd1]
      dsimp only
      rw [if_neg hpe, hout]
      simp
    · unfold accountFetchPlan
      rw [hd2]
      dsimp only
      rw [if_neg hpe, hout]
      simp
    · intro w hw
      obtain ⟨s, hs, hid⟩ := processSlots_ids now accY newIds 0 _ w hw
      rcases List.mem_map.mp hs with ⟨p, hp, rfl⟩
      have hp1 : p.1 ∈ pairs.map (·.2) := (List.of_mem_zip hp).1
      rcases List.mem_map.mp hp1 with ⟨q, hq, hq1⟩
      exact ⟨q, hq, by rw [hid, ← hq1]⟩

/-- C7: in an extraction batch, (a) a credential refresh failure for account
X marks every job of X in the batch `failed`, all with the same error; (b)
every job's final row is exactly what its own account's sub-batch processing
produces — accounts never affect each other's jobs; (c) within one account's
sub-batch, a single message-fetch failure fails that job with the fetch
error, and (d) every sibling's row is the same as if the failing job had not
been in the sub-batch at all. -/
theorem C7_failure_isolation (genv : GmailEnv) (orenv : ORouterEnv) (now : Int)
    (newIds : String → Nat → String) (batch : List LLMSyncJob) (st : LLMProcState)
    (accX : String) (acct : Account) (tok0 rt e : String) (ids2 : Nat → String)
    (accY : String) (store : List LLMSyncJob) (l1 l2 : List LLMSyncJob)
    (j0 : LLMSyncJob) (e0 : String) (acctY : Account) (tokY rtY : String)
    (hNodup : (batch.map (·.id)).Nodup)
    (hacct : genv.getAccount accX = .ok acct)
    (htok : acct.accessToken = some tok0) (hrt : acct.refreshToken = some rt)
    (hexp : isTokenExpired now acct.accessTokenExpiresAt = true)
    (href : genv.refreshAccessToken rt = .error e)
    (hY : ((l1 ++ j0 :: l2).map (·.id)).Nodup)
    (hacctY : genv.getAccount accY = .ok acctY)
    (htokY : acctY.accessToken = some tokY) (hrtY : acctY.refreshToken = some rtY)
    (hexpY : isTokenExpired now acctY.accessTokenExpiresAt = false)
    (hfail : genv.fetchEmailByID tokY j0.messageId = .error e0)
    (hor : ∀ em, ∃ pd raw, orenv.complete em = .ok (pd, raw)) :
    (∀ j ∈ batch, j.accountId = accX →
        findLLMJob (processLLMSyncJobs genv orenv now newIds batch st).llmStore j.id
          = (findLLMJob st.llmStore j.id).map (fun r =>
              { r with status := .failed, lastError := some (refreshDoubleMsg e),
                       updatedAt := now, lastSyncedAt := some now }))
      ∧ (∀ j ∈ batch,
          findLLMJob (processLLMSyncJobs genv orenv now newIds batch st).llmStore j.id
            = findLLMJob (applyWrites st.llmStore
                (accountJobsPlan genv orenv now (newIds j.accountId) j.accountId
                  (batch.filter (fun b => b.accountId = j.accountId))).writes now) j.id)
      ∧ findLLMJob (applyWrites store
            (accountJobsPlan genv orenv now ids2 accY (l1 ++ j0 :: l2)).writes now)
            j0.id
          = (findLLMJob store j0.id).map (fun r =>
              { r with status := .failed,
                       lastError := some ("failed to fetch email: " ++ e0),
                       updatedAt := now, lastSyncedAt := some now })
      ∧ (∀ j ∈ l1 ++ l2,
          findLLMJob (applyWrites store
              (accountJobsPlan genv orenv now ids2 accY (l1 ++ j0 :: l2)).writes now)
              j.id
            = findLLMJob (applyWrites store
                (accountJobsPlan genv orenv now ids2 accY (l1 ++ l2)).writes now)
                j.id) := by
  -- id bookkeeping for the fetch-failure sub-batch
  have hY' : ((l1.map (fun x => x.id)) ++ j0.id :: l2.map (fun x => x.id)).Nodup := by
    rw [← List.map_cons, ← List.map_append]
    exact hY
  have h3 := List.nodup_append.mp hY'
  have hj0l1 : j0.id ∉ l1.map (fun x => x.id) :=
    fun h => h3.2.2 h (List.mem_cons_self _ _)
  have hj0l2 : j0.id ∉ l2.map (fun x => x.id) := (List.nodup_cons.mp h3.2.1).1
  obtain ⟨S, hfull, hsmall, hS⟩ := accountFetchPlan_fail_decomp genv orenv now ids2
    accY l1 l2 j0 tokY e0 hfail hor
  have hplanY : accountJobsPlan genv orenv now ids2 accY (l1 ++ j0 :: l2)
      = accountFetchPlan genv orenv now ids2 accY (l1 ++ j0 :: l2) tokY [] :=
    accountJobsPlan_no_refresh genv orenv now ids2 accY _ acctY tokY rtY hacctY
      htokY hrtY hexpY
  have hplanY2 : accountJobsPlan genv orenv now ids2 accY (l1 ++ l2)
      = accountFetchPlan genv orenv now ids2 accY (l1 ++ l2) tokY [] :=
    accountJobsPlan_no_refresh genv orenv now ids2 accY _ acctY tokY rtY hacctY
      htokY hrtY hexpY
  have hSids : ∀ w ∈ S, w.jobId ∈ l1.map (fun x => x.id) ∨ w.jobId ∈ l2.map (fun x => x.id) := by
    intro w hw
    obtain ⟨p, hp, hid⟩ := hS w hw
    rcases List.mem_append.mp hp with h | h
    · exact Or.inl (hid ▸ List.mem_map_of_mem _ ((fetchStage_shape genv tokY l1).2 p h))
    · exact Or.inr (hid ▸ List.mem_map_of_mem _ ((fetchStage_shape genv tokY l2).2 p h))
  refine ⟨?_, ?_, ?_, ?_⟩
  · intro j hj hacc
    rw [llm_batch_lookup_local genv orenv now newIds batch st j hNodup hj, hacc]
    rw [accountJobsPlan_refresh_fail genv orenv now (newIds accX) accX _ acct tok0
      rt e hacct htok hrt hexp href]
    rw [findLLMJob_applyWrites]
    dsimp only
    rw [failAll_filter_at]
    have hsub : ((batch.filter (fun b => b.accountId = accX)).map (fun x => x.id)).Nodup :=
      ((List.filter_sublist batch).map (fun x : LLMSyncJob => x.id)).nodup hNodup
    have hjf : j ∈ batch.filter (fun b => b.accountId = accX) :=
      List.mem_filter.mpr ⟨hj, by simp [hacc]⟩
    rw [filter_id_singleton hsub hjf]
    rcases hfind : findLLMJob st.llmStore j.id with _ | r <;> simp
  · intro j hj
    exact llm_batch_lookup_local genv orenv now newIds batch st j hNodup hj
  · rw [hplanY, findLLMJob_applyWrites, hfull]
    have hF1 : ((fetchStage genv tokY l1).1).filter (fun w => w.jobId = j0.id) = [] := by
      rw [List.filter_eq_nil_iff]
      intro w hw
      simp only [decide_eq_true_eq]
      intro hEq
      exact hj0l1 (hEq ▸ (fetchStage_shape genv tokY l1).1 w hw)
    have hF2 : ((fetchStage genv tokY l2).1).filter (fun w => w.jobId = j0.id) = [] := by
      rw [List.filter_eq_nil_iff]
      intro w hw
      simp only [decide_eq_true_eq]
      intro hEq
      exact hj0l2 (hEq ▸ (fetchStage_shape genv tokY l2).1 w hw)
    have hSf : S.filter (fun w => w.jobId = j0.id) = [] := by
      rw [List.filter_eq_nil_iff]
      intro w hw
      simp only [decide_eq_true_eq]
      intro hEq
      rcases hSids w hw with h | h
      · exact hj0l1 (hEq ▸ h)
      · exact hj0l2 (hEq ▸ h)
    rw [List.filter_append, hF1, List.nil_append,
      List.filter_cons_of_pos (by simp), List.filter_append, hF2, List.nil_append, hSf]
    rcases hfind : findLLMJob store j0.id with _ | r <;> simp
  · intro j hj
    have hjne : ¬(j0.id = j.id) := by
      intro hEq
      rcases List.mem_append.mp hj with h | h
      · exact hj0l1 (hEq ▸ List.mem_map_of_mem _ h)
      · exact hj0l2 (hEq ▸ List.mem_map_of_mem _ h)
    rw [hplanY, hplanY2, findLLMJob_applyWrites, findLLMJob_applyWrites, hfull, hsmall]
    have hfilters : ((fetchStage genv tokY l1).1
          ++ (⟨j0.id, .failed, some ("failed to fetch email: " ++ e0)⟩ : StatusWrite)
          :: ((fetchStage genv tokY l2).1 ++ S)).filter (fun w => w.jobId = j.id)
        = ((fetchStage genv tokY l1).1
            ++ ((fetchStage genv tokY l2).1 ++ S)).filter (fun w => w.jobId = j.id) := by
      rw [List.filter_append, List.filter_append,
        List.filter_cons_of_neg (by simp [hjne])]
    rw [hfilters]

/-! ## Witness data -/

/-- Pending extraction job for the C3 witness. -/
def w3LLMJob : LLMSyncJob :=
  { id := "j1", accountId := "a1", messageId := "m1", status := .pending,
    lastSyncedAt := none, attempts := 0, lastError := none, createdAt := 0,
    updatedAt := 0, processedAt := none }

/-- Pending discovery job for the C3 witness. -/
def w3EmailJob : EmailSyncJob :=
  { id := "e1", accountId := "a1", status := .pending, syncType := .initial,
    emailsFetched := 0, pageToken := none, lastSyncedAt := none, attempts := 0,
    lastError := none, createdAt := 0, updatedAt := 0, processedAt := none }

/-- Pending account job for the C3 witness. -/
def w3AccountJob : AccountSyncJob :=
  { id := "a1", accountId := "acc1", status := .pending, attempts := 0,
    lastError := none, createdAt := 0, updatedAt := 0, processedAt := none }

/-- The discovery job of the C3 witness after being marked in-flight. -/
def w3EmailJobMarked : EmailSyncJob :=
  { w3EmailJob with status := .processing, lastError := none, updatedAt := 7,
                    processedAt := none, attempts := w3EmailJob.attempts + 1 }

theorem C3_mark_processing_before_dispatch_witness :
    findLLMJob (watcherProcessLLMSyncJobs [w3LLMJob] 7).store w3LLMJob.id
        = some (llmMarkXform 7 w3LLMJob)
      ∧ (watcherProcessLLMSyncJobs [w3LLMJob] 7).trace.getLast? = some .dispatch
      ∧ findEmailJob (processEmailJobModel [w3EmailJob] w3EmailJob 7).1 w3EmailJob.id
        = some w3EmailJobMarked := by
  have h := C3_mark_processing_before_dispatch [w3LLMJob] [w3EmailJob] [w3AccountJob]
    w3EmailJob w3AccountJob 7 (by decide) (by decide) (by decide) (by decide) (by decide)
  have hd : w3LLMJob ∈ (watcherProcessLLMSyncJobs [w3LLMJob] 7).dispatched := by decide
  exact ⟨(h.1 w3LLMJob hd).1, (h.1 w3LLMJob hd).2.1, h.2.1.1⟩

/-- Existing extraction row for the C4 witness. -/
def w4Existing : LLMSyncJob :=
  { id := "j1", accountId := "a1", messageId := "m1", status := .completed,
    lastSyncedAt := some 1, attempts := 1, lastError := none, createdAt := 0,
    updatedAt := 1, processedAt := none }

/-- Batch row that duplicates an existing message id. -/
def w4Dup : LLMSyncJob :=
  { id := "j2", accountId := "a1", messageId := "m1", status := .pending,
    lastSyncedAt := none, attempts := 0, lastError := none, createdAt := 2,
    updatedAt := 2, processedAt := none }

/-- Batch row with a fresh message id. -/
def w4New : LLMSyncJob :=
  { id := "j3", accountId := "a1", messageId := "m2", status := .pending,
    lastSyncedAt := none, attempts := 0, lastError := none, createdAt := 2,
    updatedAt := 2, processedAt := none }

theorem C4_bulkCreate_message_id_unique_witness :
    MessageIdUnique [w4Existing]
      ∧ MessageIdUnique (llmBulkCreate [w4Existing] [w4Dup, w4New])
      ∧ (∀ j ∈ [w4Dup, w4New], ∃ r ∈ llmBulkCreate [w4Existing] [w4Dup, w4New],
          r.messageId = j.messageId)
      ∧ llmBulkCreate [w4Existing] [w4Dup, w4New] = [w4Existing, w4New] := by
  have h := C4_bulkCreate_message_id_unique [w4Existing] [w4Dup, w4New]
    (List.pairwise_singleton _ _)
  exact ⟨List.pairwise_singleton _ _, h.1, h.2, by decide⟩

/-- Account whose refresh fails, for the C7 witness. -/
def w7AcctX : Account :=
  { id := "aX", accessToken := some "t", refreshToken := some "r",
    accessTokenExpiresAt := none }

/-- Healthy account for the C7 witness. -/
def w7AcctY : Account :=
  { id := "aY", accessToken := some "tY", refreshToken := some "rY",
    accessTokenExpiresAt := some 1000000 }

/-- Gmail environment for the C7 witness: account X's refresh fails, the
message "m0" cannot be fetched, everything else succeeds. -/
def w7genv : GmailEnv :=
  { getAccount := fun id => if id = "aX" then .ok w7AcctX else .ok w7AcctY
    fetchMessageIDs := fun _ _ _ _ => .ok ⟨[], ""⟩
    fetchEmailByID := fun _ mid =>
      if mid = "m0" then .error "gone"
      else .ok { fromAddr := "a@b", subject := "s", bodyText := "t", bodyHTML := "h" }
    refreshAccessToken := fun _ => .error "boom"
    updateTokens := fun _ _ _ _ => .ok () }

/-- Extraction oracle for the C7 witness: always answers "not a payment". -/
def w7orenv : ORouterEnv := ⟨fun _ => .ok (emptyPaymentData, [])⟩

/-- Account X's job in the C7 witness batch. -/
def w7jX : LLMSyncJob :=
  { id := "jx", accountId := "aX", messageId := "mx", status := .pending,
    lastSyncedAt := none, attempts := 1, lastError := none, createdAt := 0,
    updatedAt := 0, processedAt := none }

/-- The job whose fetch fails in the C7 witness. -/
def w7j0 : LLMSyncJob :=
  { id := "j0", accountId := "aY", messageId := "m0", status := .processing,
    lastSyncedAt := some 1, attempts := 1, lastError := none, createdAt := 0,
    updatedAt := 0, processedAt := none }

/-- Its sibling in the same sub-batch. -/
def w7j1 : LLMSyncJob :=
  { id := "j1", accountId := "aY", messageId := "m1", status := .processing,
    lastSyncedAt := some 1, attempts := 1, lastError := none, createdAt := 0,
    updatedAt := 0, processedAt := none }

theorem C7_failure_isolation_witness :
    findLLMJob (processLLMSyncJobs w7genv w7orenv 0 (fun _ _ => "p") [w7jX]
          ⟨[w7jX], [], []⟩).llmStore w7jX.id
        = (findLLMJob [w7jX] w7jX.id).map (fun r =>
            { r with status := .failed, lastError := some (refreshDoubleMsg "boom"),
                     updatedAt := 0, lastSyncedAt := some 0 })
      ∧ findLLMJob (applyWrites [w7j0, w7j1]
            (accountJobsPlan w7genv w7orenv 0 (fun _ => "p") "aY"
              ([] ++ w7j0 :: [w7j1])).writes 0) w7j0.id
        = (findLLMJob [w7j0, w7j1] w7j0.id).map (fun r =>
            { r with status := .failed,
                     lastError := some ("failed to fetch email: " ++ "gone"),
                     updatedAt := 0, lastSyncedAt := some 0 }) := by
  have h := C7_failure_isolation w7genv w7orenv 0 (fun _ _ => "p") [w7jX]
    ⟨[w7jX], [], []⟩ "aX" w7AcctX "t" "r" "boom" (fun _ => "p") "aY"
    [w7j0, w7j1] [] [w7j1] w7j0 "gone" w7AcctY "tY" "rY"
    (by decide) rfl rfl rfl rfl rfl (by decide) rfl rfl rfl rfl rfl
    (fun em => ⟨emptyPaymentData, [], rfl⟩)
  exact ⟨h.1 w7jX (by decide) rfl, h.2.2.1⟩

end PayPulse
